import Mathlib

/-!
Verification of the SVO-SDF subsystem (src/svosdf.rs): octree builder,
brick extraction/classification, and the binary save/load codec.

Machine integers are embedded as naturals with explicit wrapping where the
source performs fixed-width arithmetic: u32 operations wrap modulo 2^32
(release-mode semantics; debug builds would panic on overflow, which is
flagged where it matters), u16 operations wrap modulo 2^16.

The f32 values handled by this subsystem (header box_min and dx) are only
copied and serialized, never computed with; they are embedded as their raw
32-bit patterns.  The f32 threshold parameter is embedded as an exact
rational; the single f32 multiplication performed on it (threshold * 65535.0)
is exact for every dyadic rational threshold whose scaled value is below 2^24,
which covers all concrete thresholds appearing in this development.
-/

set_option maxRecDepth 100000

namespace SvoSdfVerify

/-- Wrap to u32 range: models Rust u32 arithmetic results. -/
def w32 (n : ℕ) : ℕ := n % 4294967296

/-- Wrap to u16 range: models Rust u16 arithmetic results. -/
def w16 (n : ℕ) : ℕ := n % 65536

/-- Wrap to u8 range: models Rust u8 arithmetic results. -/
def w8 (n : ℕ) : ℕ := n % 256

/-- Source: const LEVEL_ZERO: u16 = 65536 / 2. -/
def LEVEL_ZERO : ℕ := 65536 / 2

/-- Models the Rust expression (threshold * 65535.0) as u16: multiplication
    (idealized as exact, see the file header), then truncation toward zero with
    saturation into the u16 range, which is the semantics of the as cast.
    Computed on the numerator/denominator representation so that the kernel
    can evaluate it; the theorem quantizeThreshold_eq_floor below shows it
    equals the saturated floor of the exact product. -/
def quantizeThreshold (threshold : ℚ) : ℕ :=
  min ((threshold.num * 65535 / (threshold.den : ℤ)).toNat) 65535

/-- Source struct BoundingBox with min/max triples of u32. -/
structure BoundingBox where
  min : ℕ × ℕ × ℕ
  max : ℕ × ℕ × ℕ
deriving DecidableEq

/-- Source: BoundingBox::new. -/
def BoundingBox.new (mn mx : ℕ × ℕ × ℕ) : BoundingBox :=
  BoundingBox.mk mn mx

/-- Source: BoundingBox::size, componentwise u32 subtraction max - min.
    The subtraction underflows (a debug-build fault) only when min exceeds max;
    every box built by this subsystem keeps min <= max componentwise, and all
    theorems below stay inside that domain, where Nat subtraction agrees. -/
def BoundingBox.size (b : BoundingBox) : ℕ × ℕ × ℕ :=
  (b.max.1 - b.min.1, b.max.2.1 - b.min.2.1, b.max.2.2 - b.min.2.2)

/-- Source: BoundingBox::center, componentwise (min + max) / 2 in u32. -/
def BoundingBox.center (b : BoundingBox) : ℕ × ℕ × ℕ :=
  (w32 (b.min.1 + b.max.1) / 2, w32 (b.min.2.1 + b.max.2.1) / 2,
   w32 (b.min.2.2 + b.max.2.2) / 2)

/-- Source: BoundingBox::child_bounds.  The source panics on an index outside
    0..8 (an explicit contract violation, unreachable from the builder, whose
    loop runs over exactly 0..8); the default branch here returns the parent
    box as a junk value and no theorem depends on it. -/
def BoundingBox.child_bounds (b : BoundingBox) (child_index : ℕ) : BoundingBox :=
  let c := b.center
  match child_index with
  | 0 => BoundingBox.new b.min c
  | 1 => BoundingBox.new (c.1, b.min.2.1, b.min.2.2) (b.max.1, c.2.1, c.2.2)
  | 2 => BoundingBox.new (b.min.1, c.2.1, b.min.2.2) (c.1, b.max.2.1, c.2.2)
  | 3 => BoundingBox.new (c.1, c.2.1, b.min.2.2) (b.max.1, b.max.2.1, c.2.2)
  | 4 => BoundingBox.new (b.min.1, b.min.2.1, c.2.2) (c.1, c.2.1, b.max.2.2)
  | 5 => BoundingBox.new (c.1, b.min.2.1, c.2.2) (b.max.1, c.2.1, b.max.2.2)
  | 6 => BoundingBox.new (b.min.1, c.2.1, c.2.2) (c.1, b.max.2.1, b.max.2.2)
  | 7 => BoundingBox.new c b.max
  | _ => b

/-- Header of the external dense SDF volume (crate::sdf, consumed read-only):
    grid dimensions as u32 triple, world origin as f32 triple and voxel
    spacing as f32, the latter embedded as raw 32-bit patterns. -/
structure SdfHeader where
  dim : ℕ × ℕ × ℕ
  box_min : ℕ × ℕ × ℕ
  dx : ℕ
deriving DecidableEq

/-- The external dense SDF volume: header plus flat row-major u16 samples. -/
structure Sdf where
  header : SdfHeader
  voxels : List ℕ

/-- Source struct Brick: flat u16 sample buffer, edge length, grid origin. -/
structure Brick where
  data : List ℕ
  size : ℕ
  position : ℕ × ℕ × ℕ
deriving DecidableEq

/-- Source: Brick::new — a buffer of size*size*size (u32 products, wrapping)
    copies of LEVEL_ZERO. -/
def Brick.new (size : ℕ) (position : ℕ × ℕ × ℕ) : Brick :=
  Brick.mk (List.replicate (w32 (w32 (size * size) * size)) LEVEL_ZERO) size position

/-- Source: Brick::extract_from_sdf.  Triple loop over z, y, x in 0..size,
    overwriting the LEVEL_ZERO-initialized buffer at the in-range positions
    with the source sample.  All index arithmetic is u32, hence wrapped.
    The source indexes sdf.voxels directly (a fault when out of range, which
    cannot happen for a volume whose buffer length matches its header);
    the embedding reads through getD. -/
def Brick.extract_from_sdf (sdf : Sdf) (position : ℕ × ℕ × ℕ) (size : ℕ) : Brick :=
  let brick := Brick.new size position
  let px := position.1
  let py := position.2.1
  let pz := position.2.2
  let stride_y := sdf.header.dim.1
  let stride_z := w32 (sdf.header.dim.1 * sdf.header.dim.2.1)
  let data := (List.range size).foldl (fun az z =>
    (List.range size).foldl (fun ay y =>
      (List.range size).foldl (fun ax x =>
        let src_x := w32 (px + x)
        let src_y := w32 (py + y)
        let src_z := w32 (pz + z)
        if src_x < sdf.header.dim.1 ∧ src_y < sdf.header.dim.2.1 ∧
            src_z < sdf.header.dim.2.2 then
          let src_index := w32 (w32 (src_x + w32 (src_y * stride_y)) + w32 (src_z * stride_z))
          let dst_index := w32 (w32 (x + w32 (y * size)) + w32 (w32 (z * size) * size))
          ax.set dst_index (sdf.voxels.getD src_index 0)
        else ax) ay) az) brick.data
  Brick.mk data size position

/-- Loop body of Brick::has_surface: scans the buffer keeping the two flags,
    returning true as soon as both hold; the two comparison bounds are the u16
    expressions LEVEL_ZERO - t and LEVEL_ZERO + t, wrapped (the subtraction is
    written as addition of the 2^16 complement, the wrapping u16 semantics). -/
def hasSurfaceGo (t : ℕ) : List ℕ → Bool → Bool → Bool
  | [], _, _ => false
  | v :: rest, has_inside, has_outside =>
      let hi := has_inside || decide (v < w16 (LEVEL_ZERO + 65536 - t))
      let ho := has_outside || decide (v > w16 (LEVEL_ZERO + t))
      if hi && ho then true else hasSurfaceGo t rest hi ho

/-- Source: Brick::has_surface. -/
def Brick.has_surface (b : Brick) (threshold : ℚ) : Bool :=
  hasSurfaceGo (quantizeThreshold threshold) b.data false false

/-- Source: Brick::is_uniform — empty buffer is uniform; otherwise every
    sample must be within threshold_u16 of the first sample, compared with
    exact signed (i32) arithmetic, which cannot overflow on u16 samples. -/
def Brick.is_uniform (b : Brick) (threshold : ℚ) : Bool :=
  if b.data.isEmpty then
    true
  else
    let t := quantizeThreshold threshold
    let first_value := b.data.headD 0
    b.data.all fun v => decide (((v : ℤ) - (first_value : ℤ)).natAbs ≤ t)

/-- Source struct OctreeNode: eight optional owned children, an optional
    index into the brick collection, a leaf flag and the covered box.
    The fixed-size array of the source is embedded as a list whose length the
    builder and loader always keep at 8. -/
inductive OctreeNode where
  | mk (children : List (Option OctreeNode)) (brick_index : Option ℕ)
      (is_leaf : Bool) (bounds : BoundingBox)

/-- Field accessor for the children slots. -/
def OctreeNode.children : OctreeNode → List (Option OctreeNode)
  | OctreeNode.mk cs _ _ _ => cs

/-- Field accessor for the optional brick index. -/
def OctreeNode.brick_index : OctreeNode → Option ℕ
  | OctreeNode.mk _ bi _ _ => bi

/-- Field accessor for the leaf flag. -/
def OctreeNode.is_leaf : OctreeNode → Bool
  | OctreeNode.mk _ _ l _ => l

/-- Field accessor for the bounds. -/
def OctreeNode.bounds : OctreeNode → BoundingBox
  | OctreeNode.mk _ _ _ b => b

/-- Source: OctreeNode::new — all children absent, no brick, not a leaf. -/
def OctreeNode.new (bounds : BoundingBox) : OctreeNode :=
  OctreeNode.mk (List.replicate 8 none) none false bounds

/-- Source: OctreeNode::is_empty — no brick index and no child present. -/
def OctreeNode.is_empty (n : OctreeNode) : Bool :=
  n.brick_index.isNone && n.children.all Option.isNone

/-- The SVO-SDF aggregate: header copy, root node, ordered brick collection,
    brick edge length. -/
structure SvoSdf where
  header : SdfHeader
  root : OctreeNode
  bricks : List Brick
  brick_size : ℕ

/-- Leaf case of SvoSdf::build_octree (the branch taken when the depth bound
    is reached or the box already fits in one brick): extract a brick of edge
    min(brick_size, max extent), retain it only if it has surface data or is
    not uniform, and mark the node as a leaf.  The retained index is the
    current collection length cast to u32. -/
def buildLeaf (sdf : Sdf) (brick_size : ℕ) (threshold : ℚ) (bounds : BoundingBox)
    (bricks : List Brick) : OctreeNode × List Brick :=
  let bounds_size := bounds.size
  let brick := Brick.extract_from_sdf sdf bounds.min
    (Nat.min brick_size (Nat.max bounds_size.1 (Nat.max bounds_size.2.1 bounds_size.2.2)))
  if brick.has_surface threshold || !(brick.is_uniform threshold) then
    (OctreeNode.mk (List.replicate 8 none) (some (w32 bricks.length)) true bounds,
     bricks ++ [brick])
  else
    (OctreeNode.mk (List.replicate 8 none) none true bounds, bricks)

/-- One iteration of the child loop of SvoSdf::build_octree: build child i
    over child_bounds(i) with the current brick accumulator, and keep it in
    slot i only when it is not empty.  The recursive builder is passed in. -/
def buildStep (rec : BoundingBox → List Brick → OctreeNode × List Brick)
    (bounds : BoundingBox) (acc : List (Option OctreeNode) × List Brick) (i : ℕ) :
    List (Option OctreeNode) × List Brick :=
  let r := rec (bounds.child_bounds i) acc.2
  (if r.1.is_empty then acc.1 else acc.1.set i (some r.1), r.2)

/-- Source: SvoSdf::build_octree.  The source recurses on an increasing depth
    with guard depth >= max_depth; the embedding recurses structurally on the
    remaining depth budget max_depth - depth, so the guard is the fuel-zero
    case and each child call spends one unit.  The brick accumulator of the
    source (self.bricks, append-only) is threaded explicitly.  A child is kept
    only when it is not empty; a pruned region leaves the fresh node (not a
    leaf, no brick, no children) untouched. -/
def buildOctree (sdf : Sdf) (brick_size : ℕ) (threshold : ℚ) :
    ℕ → BoundingBox → List Brick → OctreeNode × List Brick
  | 0, bounds, bricks => buildLeaf sdf brick_size threshold bounds bricks
  | fuel + 1, bounds, bricks =>
    let bounds_size := bounds.size
    if bounds_size.1 ≤ brick_size ∧ bounds_size.2.1 ≤ brick_size ∧
        bounds_size.2.2 ≤ brick_size then
      buildLeaf sdf brick_size threshold bounds bricks
    else
      let test_brick := Brick.extract_from_sdf sdf bounds.min
        (Nat.min bounds_size.1 (Nat.min bounds_size.2.1 bounds_size.2.2))
      if !(test_brick.has_surface threshold) && test_brick.is_uniform threshold then
        (OctreeNode.new bounds, bricks)
      else
        let p := (List.range 8).foldl
          (buildStep (fun b bks => buildOctree sdf brick_size threshold fuel b bks) bounds)
          (List.replicate 8 (none : Option OctreeNode), bricks)
        (OctreeNode.mk p.1 none false bounds, p.2)

/-- Source: SvoSdf::from_sdf — build from the full-volume box (0,0,0)..dim
    starting at depth 0 with an empty brick collection. -/
def SvoSdf.from_sdf (sdf : Sdf) (brick_size : ℕ) (max_depth : ℕ) (threshold : ℚ) : SvoSdf :=
  let bounds := BoundingBox.new (0, 0, 0) sdf.header.dim
  let p := buildOctree sdf brick_size threshold max_depth bounds []
  SvoSdf.mk sdf.header p.1 p.2 brick_size

/-- Modelled from the spec: StorerVec::store_u8 of crate::serialization (the
    serialization module is not under src/); one byte. -/
def storeU8 (n : ℕ) : List ℕ := [w8 n]

/-- Modelled from the spec: StorerVec::store_u16 — a fixed-width 16-bit field,
    two bytes, little-endian (the round-trip statements are independent of the
    chosen endianness). -/
def storeU16 (n : ℕ) : List ℕ := [w16 n % 256, w16 n / 256]

/-- Modelled from the spec: StorerVec::store_u32 and store_f32 — a fixed-width
    32-bit field, four bytes, little-endian; f32 fields are stored from their
    raw 32-bit pattern. -/
def storeU32 (n : ℕ) : List ℕ :=
  [w32 n % 256, w32 n / 256 % 256, w32 n / 65536 % 256, w32 n / 16777216]

/-- Modelled from the spec: StorerVec::store_array_u16 — the samples in order,
    each as a fixed-width 16-bit field. -/
def storeArrayU16 (l : List ℕ) : List ℕ := (l.map storeU16).flatten

/-- Child-presence bitmask computation of SvoSdf::serialize_node: bit i is set
    iff child i is present (the source ors in 1 << i per present child; the
    bits are distinct so the sum below is the same value). -/
def childMaskAux : ℕ → List (Option OctreeNode) → ℕ
  | _, [] => 0
  | i, c :: rest => (if c.isSome then 2 ^ i else 0) + childMaskAux (i + 1) rest

/-- Child mask of a children list, starting at bit 0. -/
def childMask (children : List (Option OctreeNode)) : ℕ := childMaskAux 0 children

mutual

/-- Source: SvoSdf::serialize_node — leaf flag byte, brick-presence byte plus
    optional u32 index, the six bounds words, then for internal nodes the
    child mask byte followed by the present children in index order. -/
def serialize_node : OctreeNode → List ℕ
  | OctreeNode.mk children brick_index is_leaf bounds =>
      storeU8 (if is_leaf then 1 else 0) ++
      (match brick_index with
       | some idx => storeU8 1 ++ storeU32 idx
       | none => storeU8 0) ++
      storeU32 bounds.min.1 ++ storeU32 bounds.min.2.1 ++ storeU32 bounds.min.2.2 ++
      storeU32 bounds.max.1 ++ storeU32 bounds.max.2.1 ++ storeU32 bounds.max.2.2 ++
      (if is_leaf then [] else storeU8 (childMask children) ++ serialize_children children)

/-- The recursive child emission of SvoSdf::serialize_node: present children
    in index order, absent slots contribute nothing. -/
def serialize_children : List (Option OctreeNode) → List ℕ
  | [] => []
  | none :: rest => serialize_children rest
  | some child :: rest => serialize_node child ++ serialize_children rest

end

/-- Modelled from the spec: Loader::load_u8 — consume one byte; a truncated
    buffer fails the whole load. -/
def loadU8 : List ℕ → Option (ℕ × List ℕ)
  | [] => none
  | b :: rest => some (b, rest)

/-- Modelled from the spec: Loader::load_u16 — consume a 16-bit field. -/
def loadU16 : List ℕ → Option (ℕ × List ℕ)
  | b0 :: b1 :: rest => some (b0 + 256 * b1, rest)
  | _ => none

/-- Modelled from the spec: Loader::load_u32 and load_f32 — consume a 32-bit
    field (f32 fields are reproduced from their raw 32-bit pattern). -/
def loadU32 : List ℕ → Option (ℕ × List ℕ)
  | b0 :: b1 :: b2 :: b3 :: rest =>
      some (b0 + 256 * b1 + 65536 * b2 + 16777216 * b3, rest)
  | _ => none

/-- Modelled from the spec: Loader::load_array_u16 — consume the given number
    of 16-bit samples. -/
def loadArrayU16 : ℕ → List ℕ → Option (List ℕ × List ℕ)
  | 0, bytes => some ([], bytes)
  | count + 1, bytes => do
      let (v, r1) ← loadU16 bytes
      let (vs, r2) ← loadArrayU16 count r1
      pure (v :: vs, r2)

/-- Brick records of SvoSdf::load: size, position triple, then size*size*size
    samples (u32 products, wrapping, exactly as the writer sized them). -/
def loadBricksAux : ℕ → List ℕ → Option (List Brick × List ℕ)
  | 0, bytes => some ([], bytes)
  | count + 1, bytes => do
      let (size, r1) ← loadU32 bytes
      let (p0, r2) ← loadU32 r1
      let (p1, r3) ← loadU32 r2
      let (p2, r4) ← loadU32 r3
      let (data, r5) ← loadArrayU16 (w32 (w32 (size * size) * size)) r4
      let (rest, r6) ← loadBricksAux count r5
      pure (Brick.mk data size (p0, p1, p2) :: rest, r6)

/-- Child slot reconstruction of SvoSdf::deserialize_node: for i in 0..8, a
    set mask bit parses a child with bounds child_bounds(i), a clear bit
    leaves the slot absent.  The recursive node parser is passed in. -/
def deserializeChildren (parse : BoundingBox → List ℕ → Option (OctreeNode × List ℕ))
    (bounds : BoundingBox) (child_mask : ℕ) :
    ℕ → ℕ → List ℕ → Option (List (Option OctreeNode) × List ℕ)
  | _, 0, bytes => some ([], bytes)
  | i, count + 1, bytes =>
      if child_mask.testBit i then do
        let (child, r1) ← parse (bounds.child_bounds i) bytes
        let (cs, r2) ← deserializeChildren parse bounds child_mask (i + 1) count r1
        pure (some child :: cs, r2)
      else do
        let (cs, r2) ← deserializeChildren parse bounds child_mask (i + 1) count bytes
        pure (none :: cs, r2)

/-- Source: SvoSdf::deserialize_node — reads the leaf flag, the optional brick
    index, then reads and DISCARDS the six stored bounds words (the node uses
    the bounds recomputed top-down by the caller), then for internal nodes the
    child mask and the present children.  The source recursion is unbounded;
    the embedding spends one fuel unit per tree level, and the caller passes
    more fuel than the byte count, which is an upper bound on the depth since
    every level consumes bytes. -/
def deserialize_node : ℕ → List ℕ → BoundingBox → Option (OctreeNode × List ℕ)
  | 0, _, _ => none
  | fuel + 1, bytes, bounds => do
      let (leafByte, r1) ← loadU8 bytes
      let is_leaf : Bool := leafByte != 0
      let (brickByte, r2) ← loadU8 r1
      let (brick_index, r3) ←
        if brickByte != 0 then do
          let (idx, r) ← loadU32 r2
          pure ((some idx : Option ℕ), r)
        else
          pure ((none : Option ℕ), r2)
      let (_, r4) ← loadU32 r3
      let (_, r5) ← loadU32 r4
      let (_, r6) ← loadU32 r5
      let (_, r7) ← loadU32 r6
      let (_, r8) ← loadU32 r7
      let (_, r9) ← loadU32 r8
      if is_leaf then
        pure (OctreeNode.mk (List.replicate 8 none) brick_index is_leaf bounds, r9)
      else do
        let (child_mask, r10) ← loadU8 r9
        let (children, r11) ←
          deserializeChildren (fun b bs => deserialize_node fuel bs b) bounds child_mask 0 8 r10
        pure (OctreeNode.mk children brick_index is_leaf bounds, r11)

/-- Source: SvoSdf::save, at the byte-sequence level (the file write itself is
    out of scope): header fields, brick count and brick records, then the
    serialized tree. -/
def saveBytes (s : SvoSdf) : List ℕ :=
  storeU32 s.header.dim.1 ++ storeU32 s.header.dim.2.1 ++ storeU32 s.header.dim.2.2 ++
  storeU32 s.header.box_min.1 ++ storeU32 s.header.box_min.2.1 ++
  storeU32 s.header.box_min.2.2 ++
  storeU32 s.header.dx ++
  storeU32 s.brick_size ++
  storeU32 s.bricks.length ++
  (s.bricks.map (fun b =>
    storeU32 b.size ++ storeU32 b.position.1 ++ storeU32 b.position.2.1 ++
    storeU32 b.position.2.2 ++ storeArrayU16 b.data)).flatten ++
  serialize_node s.root

/-- Source: SvoSdf::load, at the byte-sequence level: header fields, brick
    records, then the tree parsed from root bounds (0,0,0)..dim derived from
    the loaded header. -/
def loadBytes (bytes : List ℕ) : Option SvoSdf := do
  let (d0, r1) ← loadU32 bytes
  let (d1, r2) ← loadU32 r1
  let (d2, r3) ← loadU32 r2
  let (b0, r4) ← loadU32 r3
  let (b1, r5) ← loadU32 r4
  let (b2, r6) ← loadU32 r5
  let (dx, r7) ← loadU32 r6
  let (brick_size, r8) ← loadU32 r7
  let (brick_count, r9) ← loadU32 r8
  let (bricks, r10) ← loadBricksAux brick_count r9
  let bounds := BoundingBox.new (0, 0, 0) (d0, d1, d2)
  let (root, _) ← deserialize_node (r10.length + 1) r10 bounds
  pure (SvoSdf.mk (SdfHeader.mk (d0, d1, d2) (b0, b1, b2) dx) root bricks brick_size)

mutual

/-- Stated from the spec for the round-trip claim: the tree with the same
    leaf flags, brick indices and child-presence pattern, whose bounds are
    recomputed top-down from the given root box via the child_bounds split. -/
def reboundNode : OctreeNode → BoundingBox → OctreeNode
  | OctreeNode.mk children brick_index is_leaf _, b =>
      OctreeNode.mk (reboundChildren b 0 children) brick_index is_leaf b

/-- Children of reboundNode: slot i keeps its presence and is rebounded into
    child_bounds(i). -/
def reboundChildren (b : BoundingBox) : ℕ → List (Option OctreeNode) → List (Option OctreeNode)
  | _, [] => []
  | i, none :: rest => none :: reboundChildren b (i + 1) rest
  | i, some c :: rest =>
      some (reboundNode c (b.child_bounds i)) :: reboundChildren b (i + 1) rest

end

mutual

/-- Structural well-formedness that every tree produced by the builder
    enjoys: 8 child slots, u32-ranged brick index, leaves without children,
    internal nodes without a brick, and no empty retained child. -/
def octreeWF : OctreeNode → Bool
  | OctreeNode.mk children brick_index is_leaf _ =>
      decide (children.length = 8) &&
      (match brick_index with
       | some idx => decide (idx < 4294967296)
       | none => true) &&
      (if is_leaf then children.all Option.isNone else brick_index.isNone) &&
      octreeChildrenWF children

/-- Well-formedness of the child slots: every present child is non-empty and
    recursively well-formed. -/
def octreeChildrenWF : List (Option OctreeNode) → Bool
  | [] => true
  | none :: rest => octreeChildrenWF rest
  | some c :: rest => !(OctreeNode.is_empty c) && octreeWF c && octreeChildrenWF rest

end

mutual

/-- All brick indices stored in a tree, in depth-first order with children
    visited in slot order — the order in which the builder appends bricks. -/
def brickIndices : OctreeNode → List ℕ
  | OctreeNode.mk children brick_index _ _ =>
      (match brick_index with
       | some idx => [idx]
       | none => []) ++ childBrickIndices children

/-- Brick indices of the child slots in order. -/
def childBrickIndices : List (Option OctreeNode) → List ℕ
  | [] => []
  | none :: rest => childBrickIndices rest
  | some c :: rest => brickIndices c ++ childBrickIndices rest

end

/-- Membership of an integer grid point in a box, reading the box as the
    half-open product of the per-axis ranges min <= p < max. -/
def inBox (p : ℕ × ℕ × ℕ) (b : BoundingBox) : Prop :=
  b.min.1 ≤ p.1 ∧ p.1 < b.max.1 ∧
  b.min.2.1 ≤ p.2.1 ∧ p.2.1 < b.max.2.1 ∧
  b.min.2.2 ≤ p.2.2 ∧ p.2.2 < b.max.2.2

instance (p : ℕ × ℕ × ℕ) (b : BoundingBox) : Decidable (inBox p b) := by
  unfold inBox
  infer_instance

/-- Stated from the spec for the has_surface claim: the quantized comparison
    value written there, round(threshold * 65535). -/
def roundQuantizedThreshold (threshold : ℚ) : ℤ :=
  round (threshold * 65535)

/-- Stated from the spec for the has_surface claim: at least one sample
    strictly below LEVEL_ZERO - round(threshold*65535) and at least one
    strictly above LEVEL_ZERO + round(threshold*65535). -/
def hasSurfaceSpecClaim (b : Brick) (threshold : ℚ) : Prop :=
  (∃ v ∈ b.data, (v : ℤ) < (LEVEL_ZERO : ℤ) - roundQuantizedThreshold threshold) ∧
  (∃ v ∈ b.data, (v : ℤ) > (LEVEL_ZERO : ℤ) + roundQuantizedThreshold threshold)

/-- Concrete scenario of the spec: an 8x8x8 volume of LEVEL_ZERO samples. -/
def sdfCube8 : Sdf :=
  Sdf.mk (SdfHeader.mk (8, 8, 8) (0, 0, 0) 0) (List.replicate 512 LEVEL_ZERO)

/-- Concrete scenario of the spec: a 16x16x16 volume of LEVEL_ZERO samples
    except a single offset sample at grid coordinate (8,8,8), row-major flat
    index 8 + 8*16 + 8*256 = 2184. -/
def sdfCenter16 : Sdf :=
  Sdf.mk (SdfHeader.mk (16, 16, 16) (0, 0, 0) 0)
    ((List.range 4096).map fun i => if i = 2184 then 40000 else LEVEL_ZERO)

/-- Counterexample volume for the pruning claim: non-cubic 2x4x4 grid whose
    32 samples all equal 0. -/
def sdfFlat244 : Sdf :=
  Sdf.mk (SdfHeader.mk (2, 4, 4) (0, 0, 0) 0) (List.replicate 32 0)

/-- Tiny 2x1x1 volume with one inside and one outside sample, used as a
    concrete built instance in witnesses. -/
def sdfTiny211 : Sdf :=
  Sdf.mk (SdfHeader.mk (2, 1, 1) (0, 0, 0) 0) [0, 65535]

/-- The z-major, then y, then x enumeration of the cube [0,n)^3, matching the
    loop nesting order of Brick::extract_from_sdf. -/
def tripleRange (n : ℕ) : List (ℕ × ℕ × ℕ) :=
  (List.range n).flatMap fun z =>
    (List.range n).flatMap fun y =>
      (List.range n).map fun x => (x, y, z)

/-- Sanity of a box as the builder maintains it: ordered per axis, with both
    corners small enough (below 2^31) that the u32 midpoint arithmetic of
    center() is exact, so the child boxes are again ordered and small. -/
def boxWF (b : BoundingBox) : Prop :=
  b.min.1 ≤ b.max.1 ∧ b.min.2.1 ≤ b.max.2.1 ∧ b.min.2.2 ≤ b.max.2.2 ∧
  b.max.1 < 2147483648 ∧ b.max.2.1 < 2147483648 ∧ b.max.2.2 < 2147483648

/-- Shape facts of a brick record exactly as the writer emits it and the
    reader reproduces it: u32-ranged size and position, buffer length equal to
    the (wrapped) size^3 product the reader recomputes, u16-ranged samples. -/
def brickWF (b : Brick) : Bool :=
  decide (b.size < 4294967296) &&
  decide (b.position.1 < 4294967296) &&
  decide (b.position.2.1 < 4294967296) &&
  decide (b.position.2.2 < 4294967296) &&
  decide (b.data.length = w32 (w32 (b.size * b.size) * b.size)) &&
  b.data.all (fun v => decide (v < 65536))

/-- The child loop of build_octree rephrased as a cons-building recursion on
    the number of remaining slots (proved equal to the source's fold over
    in-place slot updates in fold_eq_children below): the slot for index i
    holds the recursively built child exactly when that child is non-empty. -/
def buildChildren (rec : BoundingBox → List Brick → OctreeNode × List Brick)
    (bounds : BoundingBox) : ℕ → ℕ → List Brick → List (Option OctreeNode) × List Brick
  | _, 0, bricks => ([], bricks)
  | i, count + 1, bricks =>
      let r := rec (bounds.child_bounds i) bricks
      let rest := buildChildren rec bounds (i + 1) count r.2
      ((if r.1.is_empty then none else some r.1) :: rest.1, rest.2)

/-- What one build_octree call guarantees, relative to the incoming brick
    collection and box, with the per-brick guarantee abstracted as P: the
    collection only grows and the appended bricks satisfy P, the node is
    structurally well-formed, the brick indices stored in the node (in
    depth-first child order) are exactly the append positions of the new
    segment as u32 values, the node's bounds tree is its own top-down
    child_bounds recomputation, and an empty result appended nothing. -/
def buildResultSpec (P : Brick → Prop) (res : OctreeNode × List Brick)
    (bounds : BoundingBox) (bricks : List Brick) : Prop :=
  ∃ nb, res.2 = bricks ++ nb ∧
    (∀ b ∈ nb, P b) ∧
    octreeWF res.1 = true ∧
    brickIndices res.1 = (List.range' bricks.length nb.length).map w32 ∧
    reboundNode res.1 bounds = res.1 ∧
    (res.1.is_empty = true → nb = [])

/-! Theorems. -/

/-- The executable quantizeThreshold equals the saturated floor of the exact
    product threshold * 65535: truncation toward zero with clamping into
    the u16 range, the semantics of the Rust as cast on a nonnegative-range
    float. -/
theorem quantizeThreshold_eq_floor (threshold : ℚ) :
    quantizeThreshold threshold = min (Int.toNat ⌊threshold * 65535⌋) 65535 := by
  have hden : ((threshold.den : ℚ)) ≠ 0 := by
    exact_mod_cast threshold.den_nz
  have hmul : threshold * 65535 =
      ((threshold.num * 65535 : ℤ) : ℚ) / ((threshold.den : ℕ) : ℚ) := by
    push_cast
    rw [eq_div_iff hden, mul_comm threshold 65535, mul_assoc,
      Rat.mul_den_eq_num, mul_comm]
  rw [quantizeThreshold, hmul, Rat.floor_intCast_div_natCast]

/-- Characterization of the has_surface scan loop: starting from flag values
    that are not both set, it returns true exactly when, combined with the
    starting flags, the list contains both an inside and an outside sample. -/
theorem hasSurfaceGo_eq (t : ℕ) :
    ∀ (l : List ℕ) (hi ho : Bool), (hi && ho) = false →
      hasSurfaceGo t l hi ho =
        ((hi || l.any fun v => decide (v < w16 (LEVEL_ZERO + 65536 - t))) &&
         (ho || l.any fun v => decide (v > w16 (LEVEL_ZERO + t))))
  | [], hi, ho, h => by
      simp only [hasSurfaceGo, List.any_nil, Bool.or_false]
      exact h.symm
  | v :: rest, hi, ho, h => by
      rw [hasSurfaceGo]
      cases hB : ((hi || decide (v < w16 (LEVEL_ZERO + 65536 - t))) &&
          (ho || decide (v > w16 (LEVEL_ZERO + t))))
      · rw [if_neg (by simp [hB]), hasSurfaceGo_eq t rest _ _ hB]
        simp only [List.any_cons]
        cases hi <;> cases ho <;> simp [Bool.or_assoc]
      · rw [if_pos (by simp [hB])]
        simp only [List.any_cons]
        simp only [Bool.and_eq_true, Bool.or_eq_true] at hB
        obtain ⟨h1, h2⟩ := hB
        rcases h1 with h1 | h1 <;> rcases h2 with h2 | h2 <;> simp [h1, h2]

/-- C5 (amended): for thresholds in [0,1] whose quantized value stays at or
    below 32767 (so that the u16 comparison bounds neither underflow nor
    overflow), has_surface returns true iff the buffer holds a sample strictly
    below LEVEL_ZERO - t and one strictly above LEVEL_ZERO + t, where t is
    threshold * 65535 truncated toward zero (not rounded). -/
theorem c5_has_surface_characterization (b : Brick) (threshold : ℚ)
    (_h0 : 0 ≤ threshold) (_h1 : threshold ≤ 1)
    (ht : quantizeThreshold threshold ≤ 32767) :
    b.has_surface threshold = true ↔
      ((∃ v ∈ b.data, v < LEVEL_ZERO - quantizeThreshold threshold) ∧
       (∃ v ∈ b.data, LEVEL_ZERO + quantizeThreshold threshold < v)) := by
  rw [Brick.has_surface,
    hasSurfaceGo_eq (quantizeThreshold threshold) b.data false false rfl]
  have e1 : w16 (LEVEL_ZERO + 65536 - quantizeThreshold threshold) =
      LEVEL_ZERO - quantizeThreshold threshold := by
    unfold w16 LEVEL_ZERO at *
    omega
  have e2 : w16 (LEVEL_ZERO + quantizeThreshold threshold) =
      LEVEL_ZERO + quantizeThreshold threshold := by
    unfold w16 LEVEL_ZERO at *
    omega
  rw [e1, e2]
  simp [List.any_eq_true]

/-- Witness for C5: the default threshold 0.01 on a brick holding one fully
    inside and one fully outside sample. -/
theorem c5_witness :
    (0 ≤ Rat.divInt 1 100 ∧ Rat.divInt 1 100 ≤ 1 ∧
      quantizeThreshold (Rat.divInt 1 100) ≤ 32767) ∧
    (Brick.has_surface (Brick.mk [0, 65535] 2 (0, 0, 0)) (Rat.divInt 1 100) = true ↔
      ((∃ v ∈ (Brick.mk [0, 65535] 2 (0, 0, 0)).data,
          v < LEVEL_ZERO - quantizeThreshold (Rat.divInt 1 100)) ∧
       (∃ v ∈ (Brick.mk [0, 65535] 2 (0, 0, 0)).data,
          LEVEL_ZERO + quantizeThreshold (Rat.divInt 1 100) < v))) :=
  ⟨⟨by decide, by decide, by decide⟩,
    c5_has_surface_characterization (Brick.mk [0, 65535] 2 (0, 0, 0))
      (Rat.divInt 1 100) (by decide) (by decide) (by decide)⟩

/-- Counterexample for C5 as stated: at threshold 3/4096 (exactly
    representable in f32, exact product 47.999...), the code truncates the
    quantized threshold to 47 while the claim rounds it to 48; the brick
    [32720, 32816] straddles the truncated bounds but not the rounded ones,
    so has_surface returns true while the claimed characterization is
    false. -/
theorem c5_counterexample :
    Brick.has_surface (Brick.mk [32720, 32816] 2 (0, 0, 0)) (Rat.divInt 3 4096) = true ∧
    ¬ hasSurfaceSpecClaim (Brick.mk [32720, 32816] 2 (0, 0, 0)) (Rat.divInt 3 4096) := by
  constructor
  · decide
  · have hq : (Rat.divInt 3 4096 * 65535 + 1 / 2 : ℚ) =
        ((198653 : ℕ) : ℚ) / ((4096 : ℕ) : ℚ) := by
      rw [Rat.divInt_eq_div]
      push_cast
      norm_num
    have hr : roundQuantizedThreshold (Rat.divInt 3 4096) = 48 := by
      have h2 := Rat.floor_natCast_div_natCast 198653 4096
      rw [roundQuantizedThreshold, round_eq, hq, h2]
      norm_num
    rw [hasSurfaceSpecClaim, hr]
    decide

/-- Unconditional characterization of is_uniform: true exactly when every
    sample differs from the first sample (headD 0) by at most the quantized
    threshold, vacuously for an empty buffer. -/
theorem is_uniform_eq (b : Brick) (threshold : ℚ) :
    b.is_uniform threshold = true ↔
      ∀ v ∈ b.data, ((v : ℤ) - (b.data.headD 0 : ℤ)).natAbs ≤
        quantizeThreshold threshold := by
  rcases hd : b.data with _ | ⟨a, l⟩
  · simp [Brick.is_uniform, hd]
  · simp [Brick.is_uniform, hd, List.all_eq_true]

/-- C6: for every brick and threshold in [0,1], is_uniform is true exactly
    when every sample differs from the first sample by at most the quantized
    threshold value, in absolute integer terms; an empty buffer is vacuously
    uniform. -/
theorem c6_is_uniform_characterization (b : Brick) (threshold : ℚ)
    (_h0 : 0 ≤ threshold) (_h1 : threshold ≤ 1) :
    b.is_uniform threshold = true ↔
      ∀ v ∈ b.data, ((v : ℤ) - (b.data.headD 0 : ℤ)).natAbs ≤
        quantizeThreshold threshold :=
  is_uniform_eq b threshold

/-- Witness for C6: threshold 0.01 on a three-sample brick. -/
theorem c6_witness :
    (0 ≤ Rat.divInt 1 100 ∧ Rat.divInt 1 100 ≤ 1) ∧
    (Brick.is_uniform (Brick.mk [100, 200, 300] 0 (0, 0, 0)) (Rat.divInt 1 100) = true ↔
      ∀ v ∈ (Brick.mk [100, 200, 300] 0 (0, 0, 0)).data,
        ((v : ℤ) - ((Brick.mk [100, 200, 300] 0 (0, 0, 0)).data.headD 0 : ℤ)).natAbs ≤
          quantizeThreshold (Rat.divInt 1 100)) :=
  ⟨⟨by decide, by decide⟩,
    c6_is_uniform_characterization (Brick.mk [100, 200, 300] 0 (0, 0, 0))
      (Rat.divInt 1 100) (by decide) (by decide)⟩

/-- C9: the claimed no-underflow/no-overflow property fails inside the
    documented threshold range.  At threshold = 1.0 the quantized value is
    65535, so LEVEL_ZERO - threshold_u16 underflows u16 (a fault in debug
    builds) and LEVEL_ZERO + threshold_u16 exceeds 65535; under the wrapping
    release semantics embedded here, the wrapped bounds make has_surface
    report a surface for a single exactly-LEVEL_ZERO sample. -/
theorem c9_threshold_overflow :
    LEVEL_ZERO < quantizeThreshold 1 ∧
    65535 < LEVEL_ZERO + quantizeThreshold 1 ∧
    Brick.has_surface (Brick.mk [LEVEL_ZERO] 1 (0, 0, 0)) 1 = true :=
  ⟨by decide, by decide, by decide⟩

/-- C4: for a box with min <= max componentwise (and coordinate sums inside
    the u32 range, so the midpoint arithmetic is exact), the eight child boxes
    exactly partition the parent over integer grid points: each parent point
    lies in some child, distinct children are disjoint, and child i covers the
    upper half along x, y, z according to bits 0, 1, 2 of i (written here as
    i % 2, i / 2 % 2, i / 4 % 2), the split plane being the integer midpoint
    (min+max)/2 on each axis. -/
theorem c4_child_bounds_partition (b : BoundingBox)
    (hx : b.min.1 ≤ b.max.1) (hy : b.min.2.1 ≤ b.max.2.1) (hz : b.min.2.2 ≤ b.max.2.2)
    (hbx : b.min.1 + b.max.1 < 4294967296) (hby : b.min.2.1 + b.max.2.1 < 4294967296)
    (hbz : b.min.2.2 + b.max.2.2 < 4294967296) :
    (∀ p, inBox p b ↔ ∃ i, i < 8 ∧ inBox p (b.child_bounds i)) ∧
    (∀ i j p, i < 8 → j < 8 → i ≠ j →
      inBox p (b.child_bounds i) → ¬ inBox p (b.child_bounds j)) ∧
    (∀ i, i < 8 → b.child_bounds i = BoundingBox.new
      ((if i % 2 = 1 then b.center.1 else b.min.1),
       (if i / 2 % 2 = 1 then b.center.2.1 else b.min.2.1),
       (if i / 4 % 2 = 1 then b.center.2.2 else b.min.2.2))
      ((if i % 2 = 1 then b.max.1 else b.center.1),
       (if i / 2 % 2 = 1 then b.max.2.1 else b.center.2.1),
       (if i / 4 % 2 = 1 then b.max.2.2 else b.center.2.2))) := by
  have hc1 : b.center.1 = (b.min.1 + b.max.1) / 2 := by
    simp [BoundingBox.center, w32, Nat.mod_eq_of_lt hbx]
  have hc2 : b.center.2.1 = (b.min.2.1 + b.max.2.1) / 2 := by
    simp [BoundingBox.center, w32, Nat.mod_eq_of_lt hby]
  have hc3 : b.center.2.2 = (b.min.2.2 + b.max.2.2) / 2 := by
    simp [BoundingBox.center, w32, Nat.mod_eq_of_lt hbz]
  have hcx1 : b.min.1 ≤ b.center.1 := by rw [hc1]; omega
  have hcx2 : b.center.1 ≤ b.max.1 := by rw [hc1]; omega
  have hcy1 : b.min.2.1 ≤ b.center.2.1 := by rw [hc2]; omega
  have hcy2 : b.center.2.1 ≤ b.max.2.1 := by rw [hc2]; omega
  have hcz1 : b.min.2.2 ≤ b.center.2.2 := by rw [hc3]; omega
  have hcz2 : b.center.2.2 ≤ b.max.2.2 := by rw [hc3]; omega
  have hmem : ∀ i, i < 8 → ∀ p, inBox p (b.child_bounds i) ↔
      ((if i % 2 = 1 then b.center.1 ≤ p.1 ∧ p.1 < b.max.1
        else b.min.1 ≤ p.1 ∧ p.1 < b.center.1) ∧
       (if i / 2 % 2 = 1 then b.center.2.1 ≤ p.2.1 ∧ p.2.1 < b.max.2.1
        else b.min.2.1 ≤ p.2.1 ∧ p.2.1 < b.center.2.1) ∧
       (if i / 4 % 2 = 1 then b.center.2.2 ≤ p.2.2 ∧ p.2.2 < b.max.2.2
        else b.min.2.2 ≤ p.2.2 ∧ p.2.2 < b.center.2.2)) := by
    intro i hi p
    interval_cases i <;> simp [BoundingBox.child_bounds, BoundingBox.new, inBox] <;> tauto
  refine ⟨?_, ?_, ?_⟩
  · intro p
    constructor
    · intro hp
      obtain ⟨hp1, hp2, hp3, hp4, hp5, hp6⟩ := hp
      refine ⟨(if b.center.1 ≤ p.1 then 1 else 0) +
        (if b.center.2.1 ≤ p.2.1 then 2 else 0) +
        (if b.center.2.2 ≤ p.2.2 then 4 else 0), ?_, ?_⟩
      · split <;> split <;> split <;> omega
      · rw [hmem _ (by split <;> split <;> split <;> omega)]
        by_cases h1 : b.center.1 ≤ p.1 <;> by_cases h2 : b.center.2.1 ≤ p.2.1 <;>
          by_cases h3 : b.center.2.2 ≤ p.2.2 <;>
            simp [h1, h2, h3] <;> omega
    · rintro ⟨i, hi, hp⟩
      rw [hmem i hi p] at hp
      obtain ⟨hp1, hp2, hp3⟩ := hp
      unfold inBox
      refine ⟨?_, ?_, ?_, ?_, ?_, ?_⟩ <;>
        [skip; skip; skip; skip; skip; skip] <;>
        first
          | (split at hp1 <;> omega)
          | (split at hp2 <;> omega)
          | (split at hp3 <;> omega)
  · intro i j p hi hj hij hpi hpj
    rw [hmem i hi p] at hpi
    rw [hmem j hj p] at hpj
    obtain ⟨hpi1, hpi2, hpi3⟩ := hpi
    obtain ⟨hpj1, hpj2, hpj3⟩ := hpj
    by_cases a1 : i % 2 = 1 <;> by_cases a2 : i / 2 % 2 = 1 <;>
      by_cases a3 : i / 4 % 2 = 1 <;> by_cases b1 : j % 2 = 1 <;>
        by_cases b2 : j / 2 % 2 = 1 <;> by_cases b3 : j / 4 % 2 = 1 <;>
          simp [a1, a2, a3, b1, b2, b3] at hpi1 hpi2 hpi3 hpj1 hpj2 hpj3 <;> omega
  · intro i hi
    interval_cases i <;> simp [BoundingBox.child_bounds, BoundingBox.new]

/-- Witness for C4: the box (0,0,0)..(2,2,2). -/
theorem c4_witness :
    ((0 : ℕ) ≤ 2 ∧ (0 : ℕ) ≤ 2 ∧ (0 : ℕ) ≤ 2 ∧
      0 + 2 < 4294967296 ∧ 0 + 2 < 4294967296 ∧ 0 + 2 < 4294967296) ∧
    ((∀ p, inBox p (BoundingBox.mk (0, 0, 0) (2, 2, 2)) ↔
        ∃ i, i < 8 ∧ inBox p ((BoundingBox.mk (0, 0, 0) (2, 2, 2)).child_bounds i)) ∧
     (∀ i j p, i < 8 → j < 8 → i ≠ j →
        inBox p ((BoundingBox.mk (0, 0, 0) (2, 2, 2)).child_bounds i) →
        ¬ inBox p ((BoundingBox.mk (0, 0, 0) (2, 2, 2)).child_bounds j)) ∧
     (∀ i, i < 8 → (BoundingBox.mk (0, 0, 0) (2, 2, 2)).child_bounds i = BoundingBox.new
      ((if i % 2 = 1 then (BoundingBox.mk (0, 0, 0) (2, 2, 2)).center.1 else 0),
       (if i / 2 % 2 = 1 then (BoundingBox.mk (0, 0, 0) (2, 2, 2)).center.2.1 else 0),
       (if i / 4 % 2 = 1 then (BoundingBox.mk (0, 0, 0) (2, 2, 2)).center.2.2 else 0))
      ((if i % 2 = 1 then 2 else (BoundingBox.mk (0, 0, 0) (2, 2, 2)).center.1),
       (if i / 2 % 2 = 1 then 2 else (BoundingBox.mk (0, 0, 0) (2, 2, 2)).center.2.1),
       (if i / 4 % 2 = 1 then 2 else (BoundingBox.mk (0, 0, 0) (2, 2, 2)).center.2.2)))) :=
  ⟨⟨by decide, by decide, by decide, by decide, by decide, by decide⟩,
    c4_child_bounds_partition (BoundingBox.mk (0, 0, 0) (2, 2, 2))
      (by decide) (by decide) (by decide) (by decide) (by decide) (by decide)⟩

/-- Folding over a flatMap folds the generated blocks in order. -/
theorem foldl_flatMap {α β γ : Type} (l : List α) (g : α → List β) (f : γ → β → γ)
    (init : γ) :
    ((l.flatMap g).foldl f init) = l.foldl (fun a b => (g b).foldl f a) init := by
  rw [show l.flatMap g = (l.map g).flatten from rfl, List.foldl_flatten, List.foldl_map]

/-- The triple nested fold of the extraction loops equals one fold over the
    z-major triple enumeration. -/
theorem tripleRange_foldl {γ : Type} (n : ℕ) (g : γ → ℕ × ℕ × ℕ → γ) (init : γ) :
    (tripleRange n).foldl g init =
      (List.range n).foldl (fun az z =>
        (List.range n).foldl (fun ay y =>
          (List.range n).foldl (fun ax x => g ax (x, y, z)) ay) az) init := by
  simp only [tripleRange, foldl_flatMap, List.foldl_map]

/-- Membership in the triple enumeration is componentwise boundedness. -/
theorem mem_tripleRange {n : ℕ} {t : ℕ × ℕ × ℕ} :
    t ∈ tripleRange n ↔ t.1 < n ∧ t.2.1 < n ∧ t.2.2 < n := by
  obtain ⟨x, y, z⟩ := t
  simp only [tripleRange, List.mem_flatMap, List.mem_map, List.mem_range, Prod.mk.injEq]
  constructor
  · rintro ⟨z2, hz2, y2, hy2, x2, hx2, rfl, rfl, rfl⟩
    exact ⟨hx2, hy2, hz2⟩
  · rintro ⟨hx, hy, hz⟩
    exact ⟨z, hz, y, hy, x, hx, rfl, rfl, rfl⟩

/-- The triple enumeration visits each coordinate exactly once. -/
theorem tripleRange_nodup (n : ℕ) : (tripleRange n).Nodup := by
  rw [tripleRange, List.nodup_flatMap]
  constructor
  · intro z _
    rw [List.nodup_flatMap]
    constructor
    · intro y _
      exact (List.nodup_range n).map fun a b h => congrArg Prod.fst h
    · refine (List.nodup_range n).imp ?_
      intro y1 y2 hne t h1 h2
      obtain ⟨x1, _, rfl⟩ := List.mem_map.mp h1
      obtain ⟨x2, _, he⟩ := List.mem_map.mp h2
      exact hne (congrArg (fun q => q.2.1) he).symm
  · refine (List.nodup_range n).imp ?_
    intro z1 z2 hne t h1 h2
    obtain ⟨y1, _, h1b⟩ := List.mem_flatMap.mp h1
    obtain ⟨x1, _, rfl⟩ := List.mem_map.mp h1b
    obtain ⟨y2, _, h2b⟩ := List.mem_flatMap.mp h2
    obtain ⟨x2, _, he⟩ := List.mem_map.mp h2b
    exact hne (congrArg (fun q => q.2.2) he).symm

/-- Folding steps that all preserve length preserve length. -/
theorem foldl_preserve_length {α ι : Type} (step : List α → ι → List α)
    (hstep : ∀ a i, (step a i).length = a.length) :
    ∀ (l : List ι) (d : List α), (l.foldl step d).length = d.length
  | [], _ => rfl
  | i :: l, d => by
      rw [List.foldl_cons, foldl_preserve_length step hstep l _, hstep]

/-- Folding steps that never touch position j leave position j unchanged. -/
theorem foldl_get_untouched {α ι : Type} (step : List α → ι → List α) (j : ℕ) :
    ∀ (l : List ι), (∀ a, ∀ i ∈ l, (step a i)[j]? = a[j]?) →
      ∀ d : List α, (l.foldl step d)[j]? = d[j]?
  | [], _, _ => rfl
  | i :: l, h, d => by
      rw [List.foldl_cons,
        foldl_get_untouched step j l
          (fun a i2 hi2 => h a i2 (List.mem_cons_of_mem _ hi2)) _,
        h d i (List.mem_cons_self _ _)]

/-- If exactly one listed step writes value v at position j (all later steps
    leaving j alone) and every step preserves length, the fold ends with v at
    position j. -/
theorem foldl_get_write {α ι : Type} (step : List α → ι → List α) (d : List α)
    (l₁ l₂ : List ι) (i₀ : ι) (j : ℕ) (v : α)
    (hlen : ∀ a i, (step a i).length = a.length)
    (hwrite : ∀ a : List α, a.length = d.length → (step a i₀)[j]? = some v)
    (hrest : ∀ a, ∀ i ∈ l₂, (step a i)[j]? = a[j]?) :
    ((l₁ ++ i₀ :: l₂).foldl step d)[j]? = some v := by
  rw [List.foldl_append, List.foldl_cons, foldl_get_untouched step j l₂ hrest]
  exact hwrite _ (foldl_preserve_length step hlen l₁ d)

/-- The z-major flat index map is injective on the cube. -/
theorem flatIndex_inj {s x y z x2 y2 z2 : ℕ} (hx : x < s) (hy : y < s) (_hz : z < s)
    (hx2 : x2 < s) (hy2 : y2 < s) (_hz2 : z2 < s)
    (h : x + y * s + z * s * s = x2 + y2 * s + z2 * s * s) :
    x = x2 ∧ y = y2 ∧ z = z2 := by
  have hs : 0 < s := Nat.lt_of_le_of_lt (Nat.zero_le x) hx
  have ha : x + y * s + z * s * s = x + (y + z * s) * s := by ring
  have hb : x2 + y2 * s + z2 * s * s = x2 + (y2 + z2 * s) * s := by ring
  rw [ha, hb] at h
  have e1 : x % s = x2 % s := by
    have := congrArg (· % s) h
    simpa [Nat.add_mul_mod_self_right] using this
  have ex : x = x2 := by rwa [Nat.mod_eq_of_lt hx, Nat.mod_eq_of_lt hx2] at e1
  subst ex
  have h3 : y + z * s = y2 + z2 * s :=
    Nat.eq_of_mul_eq_mul_right hs (Nat.add_left_cancel h)
  have e2 : y % s = y2 % s := by
    have := congrArg (· % s) h3
    simpa [Nat.add_mul_mod_self_right] using this
  have ey : y = y2 := by rwa [Nat.mod_eq_of_lt hy, Nat.mod_eq_of_lt hy2] at e2
  subst ey
  have h4 : z * s = z2 * s := by omega
  exact ⟨rfl, rfl, Nat.eq_of_mul_eq_mul_right hs h4⟩

/-- Bounds making the destination-index u32 arithmetic exact: below size^3 the
    wrapped form collapses to the plain flat index. -/
theorem dstIndex_eq {s x y z : ℕ} (hx : x < s) (hy : y < s) (hz : z < s)
    (hs3 : s * s * s < 4294967296) :
    w32 (w32 (x + w32 (y * s)) + w32 (w32 (z * s) * s)) = x + y * s + z * s * s := by
  have h1 : y * s + s ≤ s * s := by
    have : (y + 1) * s ≤ s * s := Nat.mul_le_mul_right s (Nat.succ_le_of_lt hy)
    calc y * s + s = (y + 1) * s := by ring
    _ ≤ s * s := this
  have h2 : z * s + s ≤ s * s := by
    have : (z + 1) * s ≤ s * s := Nat.mul_le_mul_right s (Nat.succ_le_of_lt hz)
    calc z * s + s = (z + 1) * s := by ring
    _ ≤ s * s := this
  have h4 : z * s * s + s * s ≤ s * s * s := by
    have : (z * s + s) * s ≤ (s * s) * s := Nat.mul_le_mul_right s h2
    calc z * s * s + s * s = (z * s + s) * s := by ring
    _ ≤ s * s * s := this
  simp only [w32]
  have e1 : y * s % 4294967296 = y * s := Nat.mod_eq_of_lt (by omega)
  have e3 : z * s % 4294967296 = z * s := Nat.mod_eq_of_lt (by omega)
  rw [e1, e3]
  have e2 : (x + y * s) % 4294967296 = x + y * s := Nat.mod_eq_of_lt (by omega)
  have e4 : z * s * s % 4294967296 = z * s * s := Nat.mod_eq_of_lt (by omega)
  rw [e2, e4]
  exact Nat.mod_eq_of_lt (by omega)

/-- Bounds making the source-index u32 arithmetic exact: with all coordinates
    inside the grid and the sample count below 2^32, the wrapped form
    collapses to the plain row-major index. -/
theorem srcIndex_eq {dx dy dz sx sy sz : ℕ} (hsx : sx < dx) (hsy : sy < dy)
    (hsz : sz < dz) (hd : dx * dy * dz < 4294967296) :
    w32 (w32 (sx + w32 (sy * dx)) + w32 (sz * w32 (dx * dy))) =
      sx + sy * dx + sz * (dx * dy) := by
  have hdz : 0 < dz := Nat.lt_of_le_of_lt (Nat.zero_le sz) hsz
  have hdd : dx * dy ≤ dx * dy * dz := Nat.le_mul_of_pos_right _ hdz
  have h1 : sy * dx + dx ≤ dx * dy := by
    have : (sy + 1) * dx ≤ dy * dx := Nat.mul_le_mul_right dx (Nat.succ_le_of_lt hsy)
    calc sy * dx + dx = (sy + 1) * dx := by ring
    _ ≤ dy * dx := this
    _ = dx * dy := by ring
  have h2 : sz * (dx * dy) + dx * dy ≤ dx * dy * dz := by
    have : (sz + 1) * (dx * dy) ≤ dz * (dx * dy) :=
      Nat.mul_le_mul_right (dx * dy) (Nat.succ_le_of_lt hsz)
    calc sz * (dx * dy) + dx * dy = (sz + 1) * (dx * dy) := by ring
    _ ≤ dz * (dx * dy) := this
    _ = dx * dy * dz := by ring
  simp only [w32]
  have e0 : dx * dy % 4294967296 = dx * dy := Nat.mod_eq_of_lt (by omega)
  rw [e0]
  have e1 : sy * dx % 4294967296 = sy * dx := Nat.mod_eq_of_lt (by omega)
  rw [e1]
  have e2 : (sx + sy * dx) % 4294967296 = sx + sy * dx := Nat.mod_eq_of_lt (by omega)
  have e3 : sz * (dx * dy) % 4294967296 = sz * (dx * dy) := Nat.mod_eq_of_lt (by omega)
  rw [e2, e3]
  exact Nat.mod_eq_of_lt (by omega)

/-- The two nested loops of the extraction, written as one fold over the
    z-major triple enumeration. -/
theorem extract_eq_tripleFold (sdf : Sdf) (px py pz size : ℕ) :
    (Brick.extract_from_sdf sdf (px, py, pz) size).data =
      (tripleRange size).foldl
        (fun ax t =>
          if w32 (px + t.1) < sdf.header.dim.1 ∧ w32 (py + t.2.1) < sdf.header.dim.2.1 ∧
              w32 (pz + t.2.2) < sdf.header.dim.2.2 then
            ax.set (w32 (w32 (t.1 + w32 (t.2.1 * size)) + w32 (w32 (t.2.2 * size) * size)))
              (sdf.voxels.getD
                (w32 (w32 (w32 (px + t.1) + w32 (w32 (py + t.2.1) * sdf.header.dim.1)) +
                  w32 (w32 (pz + t.2.2) * w32 (sdf.header.dim.1 * sdf.header.dim.2.1)))) 0)
          else ax)
        (List.replicate (w32 (w32 (size * size) * size)) LEVEL_ZERO) := by
  rw [tripleRange_foldl]
  rfl

/-- The extracted buffer always holds size*size*size samples (with the u32
    wrap of the source product). -/
theorem extract_data_length (sdf : Sdf) (pos : ℕ × ℕ × ℕ) (size : ℕ) :
    (Brick.extract_from_sdf sdf pos size).data.length = w32 (w32 (size * size) * size) := by
  obtain ⟨px, py, pz⟩ := pos
  rw [extract_eq_tripleFold, foldl_preserve_length _ ?_, List.length_replicate]
  intro a t
  dsimp only
  split
  · exact List.length_set a _ _
  · rfl

/-- Core extraction characterization: under no-overflow side conditions, the
    sample at flat index x + y*size + z*size*size of the extracted brick is
    the source sample when the shifted coordinate is inside the grid and
    LEVEL_ZERO otherwise. -/
theorem extract_data_get (sdf : Sdf) (px py pz size : ℕ)
    (hdim : sdf.header.dim.1 * sdf.header.dim.2.1 * sdf.header.dim.2.2 < 4294967296)
    (hpx : px + size ≤ 4294967296) (hpy : py + size ≤ 4294967296)
    (hpz : pz + size ≤ 4294967296)
    (hs3 : size * size * size < 4294967296)
    {x y z : ℕ} (hx : x < size) (hy : y < size) (hz : z < size) :
    (Brick.extract_from_sdf sdf (px, py, pz) size).data[x + y * size + z * size * size]? =
      some (if px + x < sdf.header.dim.1 ∧ py + y < sdf.header.dim.2.1 ∧
              pz + z < sdf.header.dim.2.2
            then sdf.voxels.getD ((px + x) + (py + y) * sdf.header.dim.1 +
              (pz + z) * (sdf.header.dim.1 * sdf.header.dim.2.1)) 0
            else LEVEL_ZERO) := by
  have hs : 0 < size := Nat.lt_of_le_of_lt (Nat.zero_le x) hx
  have heq := extract_eq_tripleFold sdf px py pz size
  -- abbreviations and elementary bounds
  have hwx : ∀ u, u < size → w32 (px + u) = px + u := fun u hu =>
    Nat.mod_eq_of_lt (by omega)
  have hwy : ∀ u, u < size → w32 (py + u) = py + u := fun u hu =>
    Nat.mod_eq_of_lt (by omega)
  have hwz : ∀ u, u < size → w32 (pz + u) = pz + u := fun u hu =>
    Nat.mod_eq_of_lt (by omega)
  have hject : x + y * size + z * size * size < size * size * size := by
    have h1 : y * size + size ≤ size * size := by
      have : (y + 1) * size ≤ size * size := Nat.mul_le_mul_right size (Nat.succ_le_of_lt hy)
      calc y * size + size = (y + 1) * size := by ring
      _ ≤ size * size := this
    have h2 : z * size * size + size * size ≤ size * size * size := by
      have hz2 : (z + 1) * size ≤ size * size := Nat.mul_le_mul_right size (Nat.succ_le_of_lt hz)
      have : (z * size + size) * size ≤ (size * size) * size := by
        apply Nat.mul_le_mul_right
        calc z * size + size = (z + 1) * size := by ring
        _ ≤ size * size := hz2
      calc z * size * size + size * size = (z * size + size) * size := by ring
      _ ≤ size * size * size := this
    omega
  have hdlen : (List.replicate (w32 (w32 (size * size) * size)) LEVEL_ZERO).length =
      size * size * size := by
    have h1 : size * size ≤ size * size * size := Nat.le_mul_of_pos_right _ hs
    have h2 : size ≤ size * size := Nat.le_mul_of_pos_left _ hs
    rw [List.length_replicate]
    simp only [w32]
    have e1 : size * size % 4294967296 = size * size := Nat.mod_eq_of_lt (by omega)
    rw [e1]
    exact Nat.mod_eq_of_lt (by omega)
  -- every step leaves any index other than its own flat index unchanged
  have hother : ∀ (a : List ℕ) (t : ℕ × ℕ × ℕ), t ∈ tripleRange size → t ≠ (x, y, z) →
      ((fun ax (t : ℕ × ℕ × ℕ) =>
          if w32 (px + t.1) < sdf.header.dim.1 ∧ w32 (py + t.2.1) < sdf.header.dim.2.1 ∧
              w32 (pz + t.2.2) < sdf.header.dim.2.2 then
            ax.set (w32 (w32 (t.1 + w32 (t.2.1 * size)) + w32 (w32 (t.2.2 * size) * size)))
              (sdf.voxels.getD
                (w32 (w32 (w32 (px + t.1) + w32 (w32 (py + t.2.1) * sdf.header.dim.1)) +
                  w32 (w32 (pz + t.2.2) * w32 (sdf.header.dim.1 * sdf.header.dim.2.1)))) 0)
          else ax) a t)[x + y * size + z * size * size]? =
        a[x + y * size + z * size * size]? := by
    intro a t htmem htne
    obtain ⟨tx, ty, tz⟩ := t
    obtain ⟨htx, hty, htz⟩ := mem_tripleRange.mp htmem
    dsimp only at htx hty htz
    dsimp only
    split
    · apply List.getElem?_set_ne
      rw [dstIndex_eq htx hty htz hs3]
      intro hcon
      obtain ⟨ex, ey, ez⟩ := flatIndex_inj htx hty htz hx hy hz hcon
      exact htne (by rw [ex, ey, ez])
    · rfl
  have hsplit := List.mem_iff_append.mp
    (mem_tripleRange.mpr ⟨(by simpa using hx), (by simpa using hy), (by simpa using hz)⟩ :
      ((x, y, z) : ℕ × ℕ × ℕ) ∈ tripleRange size)
  obtain ⟨l₁, l₂, hll⟩ := hsplit
  have hnodup := tripleRange_nodup size
  rw [hll] at hnodup
  have hnotmem : ((x, y, z) : ℕ × ℕ × ℕ) ∉ l₂ :=
    (List.nodup_cons.mp (hnodup.of_append_right)).1
  have hl₂mem : ∀ t ∈ l₂, t ∈ tripleRange size := by
    intro t ht
    rw [hll]
    exact List.mem_append_right _ (List.mem_cons_of_mem _ ht)
  by_cases hin : px + x < sdf.header.dim.1 ∧ py + y < sdf.header.dim.2.1 ∧
      pz + z < sdf.header.dim.2.2
  · -- the step at (x,y,z) writes the source sample at our index
    rw [if_pos hin]
    rw [heq, hll]
    apply foldl_get_write
    · intro a t
      dsimp only
      split
      · exact List.length_set a _ _
      · rfl
    · intro a halen
      dsimp only
      rw [hwx x hx, hwy y hy, hwz z hz, if_pos hin]
      rw [dstIndex_eq hx hy hz hs3]
      have hidx : w32 (w32 ((px + x) + w32 ((py + y) * sdf.header.dim.1)) +
          w32 ((pz + z) * w32 (sdf.header.dim.1 * sdf.header.dim.2.1))) =
          (px + x) + (py + y) * sdf.header.dim.1 +
            (pz + z) * (sdf.header.dim.1 * sdf.header.dim.2.1) :=
        srcIndex_eq hin.1 hin.2.1 hin.2.2 hdim
      rw [hidx]
      apply List.getElem?_set_eq_of_lt
      rw [halen, hdlen]
      exact hject
    · intro a t ht
      exact hother a t (hl₂mem t ht) (fun hcon => hnotmem (hcon ▸ ht))
  · -- no step ever writes our index: the LEVEL_ZERO fill remains
    rw [if_neg hin]
    rw [heq]
    have huntouched : ∀ (a : List ℕ), ∀ t ∈ tripleRange size,
        ((fun ax (t : ℕ × ℕ × ℕ) =>
            if w32 (px + t.1) < sdf.header.dim.1 ∧ w32 (py + t.2.1) < sdf.header.dim.2.1 ∧
                w32 (pz + t.2.2) < sdf.header.dim.2.2 then
              ax.set (w32 (w32 (t.1 + w32 (t.2.1 * size)) + w32 (w32 (t.2.2 * size) * size)))
                (sdf.voxels.getD
                  (w32 (w32 (w32 (px + t.1) + w32 (w32 (py + t.2.1) * sdf.header.dim.1)) +
                    w32 (w32 (pz + t.2.2) * w32 (sdf.header.dim.1 * sdf.header.dim.2.1)))) 0)
            else ax) a t)[x + y * size + z * size * size]? =
          a[x + y * size + z * size * size]? := by
      intro a t ht
      by_cases hteq : t = ((x, y, z) : ℕ × ℕ × ℕ)
      · subst hteq
        dsimp only
        rw [hwx x hx, hwy y hy, hwz z hz, if_neg hin]
      · exact hother a t ht hteq
    rw [foldl_get_untouched _ _ _ huntouched _]
    have hcount : w32 (w32 (size * size) * size) = size * size * size := by
      have h := hdlen
      rwa [List.length_replicate] at h
    exact List.getElem?_replicate_of_lt (by rw [hcount]; exact hject)

/-- A fold whose steps preserve a membership invariant preserves it. -/
theorem foldl_preserve_mem {α ι : Type} (P : α → Prop) (step : List α → ι → List α) :
    ∀ (l : List ι) (d : List α),
      (∀ a, ∀ i ∈ l, (∀ v ∈ a, P v) → ∀ v ∈ step a i, P v) →
      (∀ v ∈ d, P v) → ∀ v ∈ l.foldl step d, P v
  | [], _, _, hd => hd
  | i :: l, d, hstep, hd => by
      rw [List.foldl_cons]
      exact foldl_preserve_mem P step l _
        (fun a i2 hi2 => hstep a i2 (List.mem_cons_of_mem _ hi2))
        (hstep d i (List.mem_cons_self _ _) hd)

/-- The plain row-major index of in-grid coordinates is below the sample
    count. -/
theorem srcIndex_lt {dx dy dz sx sy sz : ℕ} (hsx : sx < dx) (hsy : sy < dy)
    (hsz : sz < dz) : sx + sy * dx + sz * (dx * dy) < dx * dy * dz := by
  have h1 : sy * dx + dx ≤ dx * dy := by
    have : (sy + 1) * dx ≤ dy * dx := Nat.mul_le_mul_right dx (Nat.succ_le_of_lt hsy)
    calc sy * dx + dx = (sy + 1) * dx := by ring
    _ ≤ dy * dx := this
    _ = dx * dy := by ring
  have h2 : sz * (dx * dy) + dx * dy ≤ dx * dy * dz := by
    have : (sz + 1) * (dx * dy) ≤ dz * (dx * dy) :=
      Nat.mul_le_mul_right (dx * dy) (Nat.succ_le_of_lt hsz)
    calc sz * (dx * dy) + dx * dy = (sz + 1) * (dx * dy) := by ring
    _ ≤ dz * (dx * dy) := this
    _ = dx * dy * dz := by ring
  omega

/-- Every sample of an extracted brick is either a sample of the source
    volume or the LEVEL_ZERO fill (for a source volume whose buffer matches
    its header and fits the u32 index space). -/
theorem extract_data_values (sdf : Sdf) (px py pz size : ℕ)
    (hvol : sdf.voxels.length =
      sdf.header.dim.1 * sdf.header.dim.2.1 * sdf.header.dim.2.2)
    (hdim : sdf.header.dim.1 * sdf.header.dim.2.1 * sdf.header.dim.2.2 < 4294967296) :
    ∀ v ∈ (Brick.extract_from_sdf sdf (px, py, pz) size).data,
      v ∈ sdf.voxels ∨ v = LEVEL_ZERO := by
  rw [extract_eq_tripleFold]
  apply foldl_preserve_mem
  · intro a t _ ha v hv
    split at hv
    · rename_i hcond
      rcases List.mem_or_eq_of_mem_set hv with hva | hvw
      · exact ha v hva
      · left
        rw [hvw,
          srcIndex_eq hcond.1 hcond.2.1 hcond.2.2 hdim]
        have hlt : w32 (px + t.1) + w32 (py + t.2.1) * sdf.header.dim.1 +
            w32 (pz + t.2.2) * (sdf.header.dim.1 * sdf.header.dim.2.1) <
              sdf.voxels.length := by
          rw [hvol]
          exact srcIndex_lt hcond.1 hcond.2.1 hcond.2.2
        rw [List.getD_eq_getElem _ _ hlt]
        exact List.getElem_mem hlt
    · exact ha v hv
  · intro v hv
    right
    exact (List.eq_of_mem_replicate hv)

/-- C2: the brick extracted at any origin and edge length has size^3 samples;
    each sample at flat index x + y*size + z*size*size is the source sample
    at the row-major index of the shifted coordinate when that coordinate is
    strictly inside dim, and LEVEL_ZERO otherwise.  Stated under side
    conditions keeping the u32 index arithmetic of the source exact: the grid
    sample count, the cube sample count and the shifted coordinates stay
    within the u32 range. -/
theorem c2_extraction_fill (sdf : Sdf) (px py pz size : ℕ)
    (hvol : sdf.voxels.length =
      sdf.header.dim.1 * sdf.header.dim.2.1 * sdf.header.dim.2.2)
    (hdim : sdf.header.dim.1 * sdf.header.dim.2.1 * sdf.header.dim.2.2 < 4294967296)
    (hpx : px + size ≤ 4294967296) (hpy : py + size ≤ 4294967296)
    (hpz : pz + size ≤ 4294967296)
    (hs3 : size * size * size < 4294967296) :
    (Brick.extract_from_sdf sdf (px, py, pz) size).data.length = size * size * size ∧
    ∀ x y z, x < size → y < size → z < size →
      (if px + x < sdf.header.dim.1 ∧ py + y < sdf.header.dim.2.1 ∧
          pz + z < sdf.header.dim.2.2 then
        (Brick.extract_from_sdf sdf (px, py, pz) size).data[x + y * size + z * size * size]? =
          some (sdf.voxels.getD ((px + x) + (py + y) * sdf.header.dim.1 +
            (pz + z) * (sdf.header.dim.1 * sdf.header.dim.2.1)) 0) ∧
        (px + x) + (py + y) * sdf.header.dim.1 +
          (pz + z) * (sdf.header.dim.1 * sdf.header.dim.2.1) < sdf.voxels.length
      else
        (Brick.extract_from_sdf sdf (px, py, pz) size).data[x + y * size + z * size * size]? =
          some LEVEL_ZERO) := by
  constructor
  · rw [extract_data_length]
    have hs2 : size * size ≤ size * size * size ∨ size = 0 := by
      rcases Nat.eq_zero_or_pos size with h | h
      · right; exact h
      · left; exact Nat.le_mul_of_pos_right _ h
    simp only [w32]
    rcases hs2 with h | h
    · have e1 : size * size % 4294967296 = size * size := Nat.mod_eq_of_lt (by omega)
      rw [e1]
      exact Nat.mod_eq_of_lt (by omega)
    · subst h
      rfl
  · intro x y z hx hy hz
    have hg := extract_data_get sdf px py pz size hdim hpx hpy hpz hs3 hx hy hz
    split
    · rename_i hcond
      rw [if_pos hcond] at hg
      refine ⟨hg, ?_⟩
      rw [hvol]
      exact srcIndex_lt hcond.1 hcond.2.1 hcond.2.2
    · rename_i hcond
      rw [if_neg hcond] at hg
      exact hg

/-- Witness for C2: a 2x2x1 volume with samples 1..4, extracting an edge-2
    cube at origin (1,0,0), which overhangs the grid on two axes. -/
theorem c2_witness :
    ((Sdf.mk (SdfHeader.mk (2, 2, 1) (0, 0, 0) 0) [1, 2, 3, 4]).voxels.length = 2 * 2 * 1 ∧
      2 * 2 * 1 < 4294967296 ∧ 1 + 2 ≤ 4294967296 ∧ 0 + 2 ≤ 4294967296 ∧
      0 + 2 ≤ 4294967296 ∧ 2 * 2 * 2 < 4294967296) ∧
    ((Brick.extract_from_sdf (Sdf.mk (SdfHeader.mk (2, 2, 1) (0, 0, 0) 0) [1, 2, 3, 4])
        (1, 0, 0) 2).data.length = 2 * 2 * 2 ∧
     ∀ x y z, x < 2 → y < 2 → z < 2 →
      (if 1 + x < 2 ∧ 0 + y < 2 ∧ 0 + z < 1 then
        (Brick.extract_from_sdf (Sdf.mk (SdfHeader.mk (2, 2, 1) (0, 0, 0) 0) [1, 2, 3, 4])
            (1, 0, 0) 2).data[x + y * 2 + z * 2 * 2]? =
          some ([1, 2, 3, 4].getD ((1 + x) + (0 + y) * 2 + (0 + z) * (2 * 2)) 0) ∧
        (1 + x) + (0 + y) * 2 + (0 + z) * (2 * 2) < ([1, 2, 3, 4] : List ℕ).length
      else
        (Brick.extract_from_sdf (Sdf.mk (SdfHeader.mk (2, 2, 1) (0, 0, 0) 0) [1, 2, 3, 4])
            (1, 0, 0) 2).data[x + y * 2 + z * 2 * 2]? = some LEVEL_ZERO)) :=
  ⟨⟨by decide, by decide, by decide, by decide, by decide, by decide⟩,
    c2_extraction_fill (Sdf.mk (SdfHeader.mk (2, 2, 1) (0, 0, 0) 0) [1, 2, 3, 4])
      1 0 0 2 (by decide) (by decide) (by decide) (by decide) (by decide) (by decide)⟩

/-- A brick whose samples all equal either a common value v within the
    quantized threshold of LEVEL_ZERO or the LEVEL_ZERO fill has no surface
    and is uniform (for thresholds whose quantized value does not overflow
    the u16 bound arithmetic). -/
theorem brick_classify_near (b : Brick) (threshold : ℚ) (v : ℕ)
    (hb : ∀ u ∈ b.data, u = v ∨ u = LEVEL_ZERO)
    (hvt : ((v : ℤ) - (LEVEL_ZERO : ℤ)).natAbs ≤ quantizeThreshold threshold)
    (ht : quantizeThreshold threshold ≤ 32767) :
    b.has_surface threshold = false ∧ b.is_uniform threshold = true := by
  have e1 : w16 (LEVEL_ZERO + 65536 - quantizeThreshold threshold) =
      LEVEL_ZERO - quantizeThreshold threshold := by
    unfold w16 LEVEL_ZERO at *
    omega
  constructor
  · rw [Brick.has_surface,
      hasSurfaceGo_eq (quantizeThreshold threshold) b.data false false rfl]
    simp only [Bool.false_or, Bool.and_eq_false_iff, List.any_eq_false]
    left
    intro u hu
    rcases hb u hu with rfl | rfl <;>
      · rw [e1]
        simp only [decide_eq_true_eq, decide_eq_false_iff_not, Nat.not_lt]
        unfold LEVEL_ZERO at *
        omega
  · rcases hd : b.data with _ | ⟨a, l⟩
    · simp [Brick.is_uniform, hd]
    · simp only [Brick.is_uniform, hd, List.isEmpty_cons, List.headD_cons,
        if_neg Bool.false_ne_true, List.all_eq_true]
      intro u hu
      have ha : a = v ∨ a = LEVEL_ZERO := hb a (by rw [hd]; exact List.mem_cons_self _ _)
      have hu2 : u = v ∨ u = LEVEL_ZERO := hb u (by rw [hd]; exact hu)
      simp only [decide_eq_true_iff]
      rcases ha with rfl | rfl <;> rcases hu2 with rfl | rfl <;>
        · unfold LEVEL_ZERO at *
          omega

/-- C3 (amended): for a source volume all of whose samples equal a common
    value v whose distance from LEVEL_ZERO is at most the quantized threshold
    (so that the out-of-range LEVEL_ZERO fill of any overhanging probe or leaf
    brick also passes the uniformity test; in particular any all-LEVEL_ZERO
    volume), and thresholds whose quantized value stays at or below 32767,
    from_sdf returns a root with no brick index and no children, and an empty
    brick collection, for every brick_size and max_depth. -/
theorem c3_uniform_prune (sdf : Sdf) (brick_size max_depth : ℕ) (threshold : ℚ) (v : ℕ)
    (hvol : sdf.voxels.length =
      sdf.header.dim.1 * sdf.header.dim.2.1 * sdf.header.dim.2.2)
    (hdim : sdf.header.dim.1 * sdf.header.dim.2.1 * sdf.header.dim.2.2 < 4294967296)
    (hall : ∀ u ∈ sdf.voxels, u = v)
    (hvt : ((v : ℤ) - (LEVEL_ZERO : ℤ)).natAbs ≤ quantizeThreshold threshold)
    (ht : quantizeThreshold threshold ≤ 32767) :
    (SvoSdf.from_sdf sdf brick_size max_depth threshold).root.brick_index = none ∧
    (∀ c ∈ (SvoSdf.from_sdf sdf brick_size max_depth threshold).root.children, c = none) ∧
    (SvoSdf.from_sdf sdf brick_size max_depth threshold).bricks = [] := by
  have hclassify : ∀ pos sz, (Brick.extract_from_sdf sdf pos sz).has_surface threshold = false ∧
      (Brick.extract_from_sdf sdf pos sz).is_uniform threshold = true := by
    intro pos sz
    obtain ⟨px, py, pz⟩ := pos
    apply brick_classify_near _ _ v _ hvt ht
    intro u hu
    rcases extract_data_values sdf px py pz sz hvol hdim u hu with h | h
    · left
      exact hall u h
    · right
      exact h
  have hleaf : ∀ bounds, buildLeaf sdf brick_size threshold bounds [] =
      (OctreeNode.mk (List.replicate 8 none) none true bounds, []) := by
    intro bounds
    rw [buildLeaf]
    obtain ⟨hsurf, hunif⟩ := hclassify bounds.min
      (Nat.min brick_size (Nat.max bounds.size.1 (Nat.max bounds.size.2.1 bounds.size.2.2)))
    rw [hsurf, hunif]
    rfl
  have hroot : buildOctree sdf brick_size threshold max_depth
      (BoundingBox.new (0, 0, 0) sdf.header.dim) [] =
      (OctreeNode.mk (List.replicate 8 none) none true
        (BoundingBox.new (0, 0, 0) sdf.header.dim), []) ∨
      buildOctree sdf brick_size threshold max_depth
      (BoundingBox.new (0, 0, 0) sdf.header.dim) [] =
      (OctreeNode.mk (List.replicate 8 none) none false
        (BoundingBox.new (0, 0, 0) sdf.header.dim), []) := by
    cases max_depth with
    | zero =>
        left
        rw [buildOctree, hleaf]
    | succ fuel =>
        rw [buildOctree]
        split
        · left
          rw [hleaf]
        · right
          obtain ⟨hsurf, hunif⟩ := hclassify (BoundingBox.new (0, 0, 0) sdf.header.dim).min
            ((BoundingBox.new (0, 0, 0) sdf.header.dim).size.1.min
              ((BoundingBox.new (0, 0, 0) sdf.header.dim).size.2.1.min
                (BoundingBox.new (0, 0, 0) sdf.header.dim).size.2.2))
          simp only [hsurf, hunif, Bool.not_false, Bool.true_and, eq_self_iff_true,
            if_true]
          rfl
  rw [SvoSdf.from_sdf]
  rcases hroot with h | h <;>
    · rw [h]
      refine ⟨rfl, ?_, rfl⟩
      intro c hc
      exact List.eq_of_mem_replicate hc

/-- Witness for C3 (amended): a 1x1x1 all-LEVEL_ZERO volume at the default
    threshold. -/
theorem c3_witness :
    ((Sdf.mk (SdfHeader.mk (1, 1, 1) (0, 0, 0) 0) [LEVEL_ZERO]).voxels.length = 1 * 1 * 1 ∧
      1 * 1 * 1 < 4294967296 ∧
      (∀ u ∈ (Sdf.mk (SdfHeader.mk (1, 1, 1) (0, 0, 0) 0) [LEVEL_ZERO]).voxels,
        u = LEVEL_ZERO) ∧
      ((LEVEL_ZERO : ℤ) - (LEVEL_ZERO : ℤ)).natAbs ≤ quantizeThreshold (Rat.divInt 1 100) ∧
      quantizeThreshold (Rat.divInt 1 100) ≤ 32767) ∧
    ((SvoSdf.from_sdf (Sdf.mk (SdfHeader.mk (1, 1, 1) (0, 0, 0) 0) [LEVEL_ZERO])
        1 3 (Rat.divInt 1 100)).root.brick_index = none ∧
     (∀ c ∈ (SvoSdf.from_sdf (Sdf.mk (SdfHeader.mk (1, 1, 1) (0, 0, 0) 0) [LEVEL_ZERO])
        1 3 (Rat.divInt 1 100)).root.children, c = none) ∧
     (SvoSdf.from_sdf (Sdf.mk (SdfHeader.mk (1, 1, 1) (0, 0, 0) 0) [LEVEL_ZERO])
        1 3 (Rat.divInt 1 100)).bricks = []) :=
  ⟨⟨by decide, by decide, by decide, by decide, by decide⟩,
    c3_uniform_prune (Sdf.mk (SdfHeader.mk (1, 1, 1) (0, 0, 0) 0) [LEVEL_ZERO])
      1 3 (Rat.divInt 1 100) LEVEL_ZERO
      (by decide) (by decide) (by decide) (by decide) (by decide)⟩

/-- Counterexample for C3 as stated: the non-cubic 2x4x4 volume all of whose
    samples equal 0 satisfies the claim hypothesis (every sample equal, hence
    uniform and surface-free inside the grid), yet with brick_size 8 and
    threshold 0 the root-level leaf brick (edge 4, overhanging the x extent)
    mixes the source value 0 with the LEVEL_ZERO fill, fails the uniformity
    test and is retained: the root carries brick index 0 and the collection
    is nonempty. -/
theorem c3_counterexample :
    (∀ u ∈ sdfFlat244.voxels, u = 0) ∧
    (SvoSdf.from_sdf sdfFlat244 8 1 0).root.brick_index = some 0 ∧
    (SvoSdf.from_sdf sdfFlat244 8 1 0).bricks.length = 1 := by
  decide

/-- Building the 8x8x8 all-LEVEL_ZERO volume with brick size 8, depth bound 2
    and threshold 0.01 produces a pruned root leaf and no bricks: the root box
    already fits one brick, the extracted brick is entirely LEVEL_ZERO, so it
    passes the uniformity and no-surface tests and is discarded. -/
theorem cube8_build_eq :
    SvoSdf.from_sdf sdfCube8 8 2 (Rat.divInt 1 100) =
      SvoSdf.mk sdfCube8.header
        (OctreeNode.mk (List.replicate 8 none) none true
          (BoundingBox.new (0, 0, 0) sdfCube8.header.dim)) [] 8 := by
  have hroot : buildOctree sdfCube8 8 (Rat.divInt 1 100) 2
      (BoundingBox.new (0, 0, 0) sdfCube8.header.dim) [] =
      (OctreeNode.mk (List.replicate 8 none) none true
        (BoundingBox.new (0, 0, 0) sdfCube8.header.dim), []) := by
    rw [buildOctree, if_pos (by decide), buildLeaf]
    have hcl := brick_classify_near
      (Brick.extract_from_sdf sdfCube8 (BoundingBox.new (0, 0, 0) sdfCube8.header.dim).min
        (Nat.min 8 (Nat.max (BoundingBox.new (0, 0, 0) sdfCube8.header.dim).size.1
          (Nat.max (BoundingBox.new (0, 0, 0) sdfCube8.header.dim).size.2.1
            (BoundingBox.new (0, 0, 0) sdfCube8.header.dim).size.2.2))))
      (Rat.divInt 1 100) LEVEL_ZERO ?_ (by decide) (by decide)
    · rw [hcl.1, hcl.2]
      rfl
    · intro u hu
      left
      have hvol8 : sdfCube8.voxels.length =
          sdfCube8.header.dim.1 * sdfCube8.header.dim.2.1 * sdfCube8.header.dim.2.2 := by
        rw [show sdfCube8.voxels = List.replicate 512 LEVEL_ZERO from rfl,
          List.length_replicate]
        decide
      rcases extract_data_values sdfCube8 0 0 0 _ hvol8 (by decide) u hu with h | h
      · exact List.eq_of_mem_replicate h
      · exact h
  rw [SvoSdf.from_sdf, hroot]

/-- C7 (amended): the 8x8x8 all-LEVEL_ZERO scenario gives a root leaf with no
    retained brick and no children, and its serialized tree section is exactly
    one byte isLeaf = 1, one byte hasBrick = 0, then the six bounds words: 26
    bytes in total (each bounds word being a 4-byte u32), not 9. -/
theorem c7_cube8_scenario :
    (SvoSdf.from_sdf sdfCube8 8 2 (Rat.divInt 1 100)).root.is_leaf = true ∧
    (SvoSdf.from_sdf sdfCube8 8 2 (Rat.divInt 1 100)).root.brick_index = none ∧
    (∀ c ∈ (SvoSdf.from_sdf sdfCube8 8 2 (Rat.divInt 1 100)).root.children, c = none) ∧
    (SvoSdf.from_sdf sdfCube8 8 2 (Rat.divInt 1 100)).bricks = [] ∧
    serialize_node (SvoSdf.from_sdf sdfCube8 8 2 (Rat.divInt 1 100)).root =
      storeU8 1 ++ storeU8 0 ++
      storeU32 0 ++ storeU32 0 ++ storeU32 0 ++
      storeU32 8 ++ storeU32 8 ++ storeU32 8 ∧
    (serialize_node (SvoSdf.from_sdf sdfCube8 8 2 (Rat.divInt 1 100)).root).length = 26 := by
  rw [cube8_build_eq]
  refine ⟨rfl, rfl, ?_, rfl, ?_, ?_⟩
  · intro c hc
    exact List.eq_of_mem_replicate hc
  · rw [serialize_node]
    decide
  · rw [serialize_node]
    decide

/-- Counterexample for C7 as stated: the serialized tree section of the
    scenario instance is 26 bytes, not the claimed 9 (the two flag bytes plus
    six 4-byte bounds words). -/
theorem c7_counterexample :
    (serialize_node (SvoSdf.from_sdf sdfCube8 8 2 (Rat.divInt 1 100)).root).length ≠ 9 := by
  rw [cube8_build_eq, serialize_node]
  decide

/-- Every index below s^3 decomposes as a z-major flat cube index. -/
theorem flatIndex_decompose (s j : ℕ) (hj : j < s * s * s) :
    ∃ x y z, x < s ∧ y < s ∧ z < s ∧ j = x + y * s + z * s * s := by
  have hs : 0 < s := by
    rcases Nat.eq_zero_or_pos s with h | h
    · subst h
      omega
    · exact h
  refine ⟨j % s, j / s % s, j / (s * s), Nat.mod_lt _ hs, Nat.mod_lt _ hs,
    Nat.div_lt_of_lt_mul hj, ?_⟩
  have h1 : j % s + s * (j / s) = j := Nat.mod_add_div j s
  have h1b : j % s + (j / s) * s = j := by rw [Nat.mul_comm (j / s) s]; exact h1
  have h2 : j / s % s + s * (j / s / s) = j / s := Nat.mod_add_div (j / s) s
  rw [Nat.div_div_eq_div_mul j s s] at h2
  have h4 : (j / s % s + s * (j / (s * s))) * s = (j / s) * s := by rw [h2]
  have h4b : (j / s % s) * s + (j / (s * s)) * s * s = (j / s) * s := by
    rw [← h4]
    ring
  omega

/-- First-element versus positional access. -/
theorem headD_eq_getElem (l : List ℕ) (d : ℕ) : l.headD d = (l[0]?).getD d := by
  cases l with
  | nil => rfl
  | cons a t => simp

/-- The buffer length of the single-spike 16^3 volume. -/
theorem center16_voxels_length :
    sdfCenter16.voxels.length =
      sdfCenter16.header.dim.1 * sdfCenter16.header.dim.2.1 * sdfCenter16.header.dim.2.2 := by
  rw [show sdfCenter16.voxels =
    (List.range 4096).map (fun i => if i = 2184 then 40000 else LEVEL_ZERO) from rfl]
  rw [List.length_map, List.length_range]
  decide

/-- Pointwise lookup in the single-spike 16^3 volume. -/
theorem center16_voxels_getD (i : ℕ) (hi : i < 4096) :
    sdfCenter16.voxels.getD i 0 = if i = 2184 then 40000 else LEVEL_ZERO := by
  rw [show sdfCenter16.voxels =
    (List.range 4096).map (fun i => if i = 2184 then 40000 else LEVEL_ZERO) from rfl]
  rw [List.getD_eq_getElem?_getD, List.getElem?_map, List.getElem?_range hi]
  rfl

/-- An edge-8 brick extracted at any octant corner of the 16^3 spike volume
    other than the center octant consists purely of LEVEL_ZERO samples. -/
theorem center16_extract_all_LZ (cx cy cz : ℕ)
    (hcx : cx = 0 ∨ cx = 8) (hcy : cy = 0 ∨ cy = 8) (hcz : cz = 0 ∨ cz = 8)
    (hnot : ¬(cx = 8 ∧ cy = 8 ∧ cz = 8)) :
    ∀ u ∈ (Brick.extract_from_sdf sdfCenter16 (cx, cy, cz) 8).data, u = LEVEL_ZERO := by
  intro u hu
  obtain ⟨j, hj⟩ := List.mem_iff_getElem?.mp hu
  have hjlt : j < (Brick.extract_from_sdf sdfCenter16 (cx, cy, cz) 8).data.length :=
    (List.getElem?_eq_some_iff.mp hj).1
  rw [extract_data_length] at hjlt
  have hjlt2 : j < 8 * 8 * 8 := by
    have : w32 (w32 (8 * 8) * 8) = 8 * 8 * 8 := by decide
    omega
  obtain ⟨x, y, z, hx, hy, hz, rfl⟩ := flatIndex_decompose 8 j hjlt2
  have hg := extract_data_get sdfCenter16 cx cy cz 8 (by decide)
    (by omega) (by omega) (by omega) (by decide) hx hy hz
  rw [hj] at hg
  have hin : cx + x < sdfCenter16.header.dim.1 ∧ cy + y < sdfCenter16.header.dim.2.1 ∧
      cz + z < sdfCenter16.header.dim.2.2 := by
    refine ⟨?_, ?_, ?_⟩ <;> (show _ < 16; omega)
  rw [if_pos hin] at hg
  have hu2 := Option.some.inj hg
  have hidx : (cx + x) + (cy + y) * sdfCenter16.header.dim.1 +
      (cz + z) * (sdfCenter16.header.dim.1 * sdfCenter16.header.dim.2.1) =
      (cx + x) + (cy + y) * 16 + (cz + z) * 16 * 16 := by
    show (cx + x) + (cy + y) * 16 + (cz + z) * (16 * 16) = _
    ring
  rw [hidx] at hu2
  have hlt : (cx + x) + (cy + y) * 16 + (cz + z) * 16 * 16 < 4096 := by
    have := @srcIndex_lt 16 16 16 (cx + x) (cy + y) (cz + z) (by omega) (by omega) (by omega)
    have ha : (cz + z) * (16 * 16) = (cz + z) * 16 * 16 := by ring
    omega
  rw [center16_voxels_getD _ hlt] at hu2
  have hne : (cx + x) + (cy + y) * 16 + (cz + z) * 16 * 16 ≠ 2184 := by
    intro hcon
    have h2184 : (2184 : ℕ) = 8 + 8 * 16 + 8 * 16 * 16 := by decide
    rw [h2184] at hcon
    obtain ⟨e1, e2, e3⟩ := flatIndex_inj (s := 16) (by omega) (by omega) (by omega)
      (by omega) (by omega) (by omega) hcon
    omega
  rw [if_neg hne] at hu2
  exact hu2

/-- The edge-8 brick at the center octant corner (8,8,8) of the spike volume
    is not uniform at threshold 0.01: its first sample is the spike value
    40000 while its other samples are LEVEL_ZERO. -/
theorem center16_extract8_not_uniform :
    (Brick.extract_from_sdf sdfCenter16 (8, 8, 8) 8).is_uniform (Rat.divInt 1 100) = false := by
  rw [Bool.eq_false_iff]
  intro h
  have hP := (is_uniform_eq _ _).mp h
  have h0 := extract_data_get sdfCenter16 8 8 8 8 (by decide)
    (by decide) (by decide) (by decide) (by decide)
    (x := 0) (y := 0) (z := 0) (by decide) (by decide) (by decide)
  rw [if_pos (by decide)] at h0
  rw [center16_voxels_getD _ (by decide)] at h0
  rw [if_pos (by decide)] at h0
  have h1 := extract_data_get sdfCenter16 8 8 8 8 (by decide)
    (by decide) (by decide) (by decide) (by decide)
    (x := 1) (y := 0) (z := 0) (by decide) (by decide) (by decide)
  rw [if_pos (by decide)] at h1
  rw [center16_voxels_getD _ (by decide)] at h1
  rw [if_neg (by decide)] at h1
  have hhead : (Brick.extract_from_sdf sdfCenter16 (8, 8, 8) 8).data.headD 0 = 40000 := by
    rw [headD_eq_getElem]
    have h0b : (Brick.extract_from_sdf sdfCenter16 (8, 8, 8) 8).data[(0 : ℕ)]? =
        some 40000 := by simpa using h0
    rw [h0b]
    rfl
  have hmem : LEVEL_ZERO ∈ (Brick.extract_from_sdf sdfCenter16 (8, 8, 8) 8).data :=
    List.getElem?_mem h1
  have := hP LEVEL_ZERO hmem
  rw [hhead] at this
  revert this
  decide

/-- The full-extent probe brick of the spike volume is not uniform at
    threshold 0.01: its first sample is LEVEL_ZERO while the center sample is
    the spike value 40000. -/
theorem center16_probe_not_uniform :
    (Brick.extract_from_sdf sdfCenter16 (0, 0, 0) 16).is_uniform (Rat.divInt 1 100) = false := by
  rw [Bool.eq_false_iff]
  intro h
  have hP := (is_uniform_eq _ _).mp h
  have h0 := extract_data_get sdfCenter16 0 0 0 16 (by decide)
    (by decide) (by decide) (by decide) (by decide)
    (x := 0) (y := 0) (z := 0) (by decide) (by decide) (by decide)
  rw [if_pos (by decide)] at h0
  rw [center16_voxels_getD _ (by decide)] at h0
  rw [if_neg (by decide)] at h0
  have h1 := extract_data_get sdfCenter16 0 0 0 16 (by decide)
    (by decide) (by decide) (by decide) (by decide)
    (x := 8) (y := 8) (z := 8) (by decide) (by decide) (by decide)
  rw [if_pos (by decide)] at h1
  rw [center16_voxels_getD _ (by decide)] at h1
  rw [if_pos (by decide)] at h1
  have hhead : (Brick.extract_from_sdf sdfCenter16 (0, 0, 0) 16).data.headD 0 =
      LEVEL_ZERO := by
    rw [headD_eq_getElem]
    have h0b : (Brick.extract_from_sdf sdfCenter16 (0, 0, 0) 16).data[(0 : ℕ)]? =
        some LEVEL_ZERO := by simpa using h0
    rw [h0b]
    rfl
  have hmem : (40000 : ℕ) ∈ (Brick.extract_from_sdf sdfCenter16 (0, 0, 0) 16).data :=
    List.getElem?_mem h1
  have := hP 40000 hmem
  rw [hhead] at this
  revert this
  decide

/-- A child-loop step whose built child is empty leaves the slots unchanged
    and threads the brick accumulator. -/
theorem buildStep_pruned (rec : BoundingBox → List Brick → OctreeNode × List Brick)
    (bounds : BoundingBox) (cs : List (Option OctreeNode)) (bricks : List Brick) (i : ℕ)
    (node : OctreeNode) (bricks2 : List Brick)
    (h : rec (bounds.child_bounds i) bricks = (node, bricks2))
    (hemp : node.is_empty = true) :
    buildStep rec bounds (cs, bricks) i = (cs, bricks2) := by
  unfold buildStep
  dsimp only
  rw [h]
  dsimp only
  rw [hemp]
  rfl

/-- A child-loop step whose built child is not empty records it in slot i. -/
theorem buildStep_kept (rec : BoundingBox → List Brick → OctreeNode × List Brick)
    (bounds : BoundingBox) (cs : List (Option OctreeNode)) (bricks : List Brick) (i : ℕ)
    (node : OctreeNode) (bricks2 : List Brick)
    (h : rec (bounds.child_bounds i) bricks = (node, bricks2))
    (hemp : node.is_empty = false) :
    buildStep rec bounds (cs, bricks) i = (cs.set i (some node), bricks2) := by
  unfold buildStep
  dsimp only
  rw [h]
  dsimp only
  rw [hemp]
  rfl

/-- Building an edge-8 non-center octant of the spike volume at depth budget
    0 yields a pruned leaf: the extracted brick is all LEVEL_ZERO, passes both
    tests and is discarded. -/
theorem center16_child_pruned (cx cy cz : ℕ)
    (hcx : cx = 0 ∨ cx = 8) (hcy : cy = 0 ∨ cy = 8) (hcz : cz = 0 ∨ cz = 8)
    (hnot : ¬(cx = 8 ∧ cy = 8 ∧ cz = 8)) (bricks : List Brick) :
    buildOctree sdfCenter16 8 (Rat.divInt 1 100) 0
      (BoundingBox.new (cx, cy, cz) (cx + 8, cy + 8, cz + 8)) bricks =
      (OctreeNode.mk (List.replicate 8 none) none true
        (BoundingBox.new (cx, cy, cz) (cx + 8, cy + 8, cz + 8)), bricks) := by
  rw [buildOctree, buildLeaf]
  rw [show (BoundingBox.new (cx, cy, cz) (cx + 8, cy + 8, cz + 8)).min =
    ((cx, cy, cz) : ℕ × ℕ × ℕ) from rfl]
  have hedge : Nat.min 8
      (Nat.max (BoundingBox.new (cx, cy, cz) (cx + 8, cy + 8, cz + 8)).size.1
        (Nat.max (BoundingBox.new (cx, cy, cz) (cx + 8, cy + 8, cz + 8)).size.2.1
          (BoundingBox.new (cx, cy, cz) (cx + 8, cy + 8, cz + 8)).size.2.2)) = 8 := by
    have e1 : (BoundingBox.new (cx, cy, cz) (cx + 8, cy + 8, cz + 8)).size.1 = 8 := by
      show cx + 8 - cx = 8
      omega
    have e2 : (BoundingBox.new (cx, cy, cz) (cx + 8, cy + 8, cz + 8)).size.2.1 = 8 := by
      show cy + 8 - cy = 8
      omega
    have e3 : (BoundingBox.new (cx, cy, cz) (cx + 8, cy + 8, cz + 8)).size.2.2 = 8 := by
      show cz + 8 - cz = 8
      omega
    rw [e1, e2, e3]
    rfl
  rw [hedge]
  have hcl := brick_classify_near (Brick.extract_from_sdf sdfCenter16 (cx, cy, cz) 8)
    (Rat.divInt 1 100) LEVEL_ZERO
    (fun u hu => Or.inr (center16_extract_all_LZ cx cy cz hcx hcy hcz hnot u hu))
    (by decide) (by decide)
  rw [hcl.1, hcl.2]
  rfl

/-- The spike-volume build: the root subdivides, children 0..6 are pruned and
    child 7 (the center octant) is a retained leaf holding brick 0. -/
theorem center16_build_eq :
    SvoSdf.from_sdf sdfCenter16 8 1 (Rat.divInt 1 100) =
      SvoSdf.mk sdfCenter16.header
        (OctreeNode.mk
          [none, none, none, none, none, none, none,
            some (OctreeNode.mk (List.replicate 8 none) (some 0) true
              (BoundingBox.new (8, 8, 8) (16, 16, 16)))]
          none false (BoundingBox.new (0, 0, 0) sdfCenter16.header.dim))
        [Brick.extract_from_sdf sdfCenter16 (8, 8, 8) 8] 8 := by
  have hc : ∀ i cx cy cz, (cx = 0 ∨ cx = 8) → (cy = 0 ∨ cy = 8) → (cz = 0 ∨ cz = 8) →
      ¬(cx = 8 ∧ cy = 8 ∧ cz = 8) →
      (BoundingBox.new (0, 0, 0) sdfCenter16.header.dim).child_bounds i =
        BoundingBox.new (cx, cy, cz) (cx + 8, cy + 8, cz + 8) →
      ∀ bricks, buildOctree sdfCenter16 8 (Rat.divInt 1 100) 0
        ((BoundingBox.new (0, 0, 0) sdfCenter16.header.dim).child_bounds i) bricks =
        (OctreeNode.mk (List.replicate 8 none) none true
          ((BoundingBox.new (0, 0, 0) sdfCenter16.header.dim).child_bounds i), bricks) := by
    intro i cx cy cz hcx hcy hcz hnot hcb bricks
    rw [hcb]
    exact center16_child_pruned cx cy cz hcx hcy hcz hnot bricks
  have hc0 := hc 0 0 0 0 (Or.inl rfl) (Or.inl rfl) (Or.inl rfl) (by omega) (by decide)
  have hc1 := hc 1 8 0 0 (Or.inr rfl) (Or.inl rfl) (Or.inl rfl) (by omega) (by decide)
  have hc2 := hc 2 0 8 0 (Or.inl rfl) (Or.inr rfl) (Or.inl rfl) (by omega) (by decide)
  have hc3 := hc 3 8 8 0 (Or.inr rfl) (Or.inr rfl) (Or.inl rfl) (by omega) (by decide)
  have hc4 := hc 4 0 0 8 (Or.inl rfl) (Or.inl rfl) (Or.inr rfl) (by omega) (by decide)
  have hc5 := hc 5 8 0 8 (Or.inr rfl) (Or.inl rfl) (Or.inr rfl) (by omega) (by decide)
  have hc6 := hc 6 0 8 8 (Or.inl rfl) (Or.inr rfl) (Or.inr rfl) (by omega) (by decide)
  have hc7 : ∀ bricks, buildOctree sdfCenter16 8 (Rat.divInt 1 100) 0
      ((BoundingBox.new (0, 0, 0) sdfCenter16.header.dim).child_bounds 7) bricks =
      (OctreeNode.mk (List.replicate 8 none) (some (w32 bricks.length)) true
        ((BoundingBox.new (0, 0, 0) sdfCenter16.header.dim).child_bounds 7),
       bricks ++ [Brick.extract_from_sdf sdfCenter16 (8, 8, 8) 8]) := by
    intro bricks
    rw [buildOctree, buildLeaf]
    rw [show ((BoundingBox.new (0, 0, 0) sdfCenter16.header.dim).child_bounds 7).min =
      ((8, 8, 8) : ℕ × ℕ × ℕ) from by decide]
    rw [show Nat.min 8
      (Nat.max ((BoundingBox.new (0, 0, 0) sdfCenter16.header.dim).child_bounds 7).size.1
        (Nat.max
          ((BoundingBox.new (0, 0, 0) sdfCenter16.header.dim).child_bounds 7).size.2.1
          ((BoundingBox.new (0, 0, 0) sdfCenter16.header.dim).child_bounds 7).size.2.2)) = 8
      from by decide]
    rw [center16_extract8_not_uniform]
    simp only [Bool.not_false, Bool.or_true, eq_self_iff_true, if_true]
  have hroot : buildOctree sdfCenter16 8 (Rat.divInt 1 100) 1
      (BoundingBox.new (0, 0, 0) sdfCenter16.header.dim) [] =
      (OctreeNode.mk
        [none, none, none, none, none, none, none,
          some (OctreeNode.mk (List.replicate 8 none) (some 0) true
            (BoundingBox.new (8, 8, 8) (16, 16, 16)))]
        none false (BoundingBox.new (0, 0, 0) sdfCenter16.header.dim),
       [Brick.extract_from_sdf sdfCenter16 (8, 8, 8) 8]) := by
    rw [buildOctree]
    rw [if_neg (by decide)]
    dsimp only
    split
    · rename_i hcond
      exfalso
      have hcond2 := hcond
      simp only [Bool.and_eq_true] at hcond2
      have h2 : (Brick.extract_from_sdf sdfCenter16 (0, 0, 0) 16).is_uniform
          (Rat.divInt 1 100) = true := hcond2.2
      rw [center16_probe_not_uniform] at h2
      exact Bool.false_ne_true h2
    · rw [show List.range 8 = [0, 1, 2, 3, 4, 5, 6, 7] from rfl]
      rw [List.foldl_cons, List.foldl_cons, List.foldl_cons, List.foldl_cons,
        List.foldl_cons, List.foldl_cons, List.foldl_cons, List.foldl_cons,
        List.foldl_nil]
      rw [buildStep_pruned _ _ _ _ _ _ _ (hc0 []) rfl]
      rw [buildStep_pruned _ _ _ _ _ _ _ (hc1 []) rfl]
      rw [buildStep_pruned _ _ _ _ _ _ _ (hc2 []) rfl]
      rw [buildStep_pruned _ _ _ _ _ _ _ (hc3 []) rfl]
      rw [buildStep_pruned _ _ _ _ _ _ _ (hc4 []) rfl]
      rw [buildStep_pruned _ _ _ _ _ _ _ (hc5 []) rfl]
      rw [buildStep_pruned _ _ _ _ _ _ _ (hc6 []) rfl]
      rw [buildStep_kept _ _ _ _ _ _ _ (hc7 []) rfl]
      rfl
  rw [SvoSdf.from_sdf, hroot]

/-- C8: building the 16x16x16 single-center-spike volume with brick size 8
    and depth bound 1 gives a non-leaf root whose only present child is slot
    7 — the octant (8,8,8)..(16,16,16) covering the center sample — retained
    as a leaf holding brick 0; the other seven slots are absent, the child
    mask is 128 (only bit 7 set), and every bit below 7 is clear. -/
theorem c8_center16_scenario :
    (SvoSdf.from_sdf sdfCenter16 8 1 (Rat.divInt 1 100)).root.is_leaf = false ∧
    (SvoSdf.from_sdf sdfCenter16 8 1 (Rat.divInt 1 100)).root.children =
      List.replicate 7 none ++
        [some (OctreeNode.mk (List.replicate 8 none) (some 0) true
          (BoundingBox.new (8, 8, 8) (16, 16, 16)))] ∧
    inBox (8, 8, 8) (BoundingBox.new (8, 8, 8) (16, 16, 16)) ∧
    (SvoSdf.from_sdf sdfCenter16 8 1 (Rat.divInt 1 100)).bricks.length = 1 ∧
    childMask (SvoSdf.from_sdf sdfCenter16 8 1 (Rat.divInt 1 100)).root.children = 128 ∧
    (∀ i, i < 7 →
      (childMask (SvoSdf.from_sdf sdfCenter16 8 1 (Rat.divInt 1 100)).root.children).testBit i
        = false) := by
  rw [center16_build_eq]
  refine ⟨rfl, rfl, by decide, rfl, rfl, ?_⟩
  intro i hi
  interval_cases i <;> rfl

/-- A slot list of absent children contributes no brick indices. -/
theorem childBrickIndices_all_none :
    ∀ (l : List (Option OctreeNode)), (∀ c ∈ l, c = none) → childBrickIndices l = [] := by
  intro l
  induction l with
  | nil => intro _; rw [childBrickIndices]
  | cons c rest ih =>
    intro h
    have hc : c = none := h c (List.mem_cons_self c rest)
    subst hc
    rw [childBrickIndices]
    exact ih fun d hd => h d (List.mem_cons_of_mem _ hd)

/-- A slot list of absent children is well-formed. -/
theorem octreeChildrenWF_all_none :
    ∀ (l : List (Option OctreeNode)), (∀ c ∈ l, c = none) → octreeChildrenWF l = true := by
  intro l
  induction l with
  | nil => intro _; rw [octreeChildrenWF]
  | cons c rest ih =>
    intro h
    have hc : c = none := h c (List.mem_cons_self c rest)
    subst hc
    rw [octreeChildrenWF]
    exact ih fun d hd => h d (List.mem_cons_of_mem _ hd)

/-- The 8 fresh slots are well-formed. -/
theorem octreeChildrenWF_nones :
    octreeChildrenWF (List.replicate 8 (none : Option OctreeNode)) = true :=
  octreeChildrenWF_all_none _ (fun _ hc => List.eq_of_mem_replicate hc)

/-- Well-formedness of any childless node whose brick index is u32-ranged and
    absent unless the node is a leaf. -/
theorem octreeWF_childless (bi : Option ℕ) (leaf : Bool) (bounds : BoundingBox)
    (hbi : ∀ i, bi = some i → i < 4294967296)
    (hleaf : leaf = false → bi = none) :
    octreeWF (OctreeNode.mk (List.replicate 8 none) bi leaf bounds) = true := by
  rw [octreeWF.eq_def]
  dsimp only
  simp only [Bool.and_eq_true, and_assoc]
  refine ⟨?_, ?_, ?_, octreeChildrenWF_nones⟩
  · decide
  · cases bi with
    | none => rfl
    | some i => exact decide_eq_true (hbi i rfl)
  · cases leaf with
    | false => rw [hleaf rfl]; rfl
    | true => rfl

/-- Rebounding fixes a slot list of absent children at any index. -/
theorem reboundChildren_all_none (b : BoundingBox) :
    ∀ (l : List (Option OctreeNode)) (i : ℕ), (∀ c ∈ l, c = none) →
      reboundChildren b i l = l := by
  intro l
  induction l with
  | nil => intro i _; rw [reboundChildren]
  | cons c rest ih =>
    intro i h
    have hc : c = none := h c (List.mem_cons_self c rest)
    subst hc
    rw [reboundChildren]
    rw [ih (i + 1) fun d hd => h d (List.mem_cons_of_mem _ hd)]

/-- Setting the element just after a prefix replaces the head of the tail. -/
theorem set_append_len {α : Type} :
    ∀ (pre : List α) (x v : α) (tail : List α),
      (pre ++ x :: tail).set pre.length v = pre ++ v :: tail := by
  intro pre
  induction pre with
  | nil => intro x v tail; rfl
  | cons a rest ih =>
    intro x v tail
    show a :: ((rest ++ x :: tail).set rest.length v) = a :: (rest ++ v :: tail)
    rw [ih]

/-- Splitting an index range at a point. -/
theorem range'_split : ∀ (m s n : ℕ),
    List.range' s (m + n) = List.range' s m ++ List.range' (s + m) n := by
  intro m
  induction m with
  | zero => intro s n; simp
  | succ m ih =>
    intro s n
    have h1 : m + 1 + n = (m + n) + 1 := by omega
    have h2 : s + 1 + m = s + (m + 1) := by omega
    rw [h1, List.range'_succ, List.range'_succ, ih (s + 1) n, h2]
    rfl

/-- The source's child loop (a fold over indexed in-place updates on the
    8 fresh slots) equals the cons-building recursion buildChildren. -/
theorem fold_eq_children (rec : BoundingBox → List Brick → OctreeNode × List Brick)
    (bounds : BoundingBox) :
    ∀ (count : ℕ) (pre : List (Option OctreeNode)) (bricks : List Brick),
      (List.range' pre.length count).foldl (buildStep rec bounds)
          (pre ++ List.replicate count none, bricks) =
        (pre ++ (buildChildren rec bounds pre.length count bricks).1,
         (buildChildren rec bounds pre.length count bricks).2) := by
  intro count
  induction count with
  | zero =>
    intro pre bricks
    simp [buildChildren]
  | succ count ih =>
    intro pre bricks
    rw [List.range'_succ, List.foldl_cons]
    have hstep : buildStep rec bounds (pre ++ List.replicate (count + 1) none, bricks)
        pre.length =
        ((pre ++ [if (rec (bounds.child_bounds pre.length) bricks).1.is_empty then none
            else some (rec (bounds.child_bounds pre.length) bricks).1]) ++
          List.replicate count none,
         (rec (bounds.child_bounds pre.length) bricks).2) := by
      unfold buildStep
      dsimp only
      rw [List.replicate_succ]
      by_cases hemp : (rec (bounds.child_bounds pre.length) bricks).1.is_empty = true
      · simp [hemp]
      · rw [if_neg hemp, if_neg hemp, set_append_len]
        simp
    rw [hstep]
    have ih2 := ih (pre ++ [if (rec (bounds.child_bounds pre.length) bricks).1.is_empty
        then none else some (rec (bounds.child_bounds pre.length) bricks).1])
        (rec (bounds.child_bounds pre.length) bricks).2
    rw [show (pre ++ [if (rec (bounds.child_bounds pre.length) bricks).1.is_empty
        then none else some (rec (bounds.child_bounds pre.length) bricks).1]).length
        = pre.length + 1 from by simp] at ih2
    rw [ih2]
    rw [buildChildren]
    simp [List.append_assoc]

/-- The full 8-slot loop of the subdivide branch in buildChildren form. -/
theorem fold_children_full (rec : BoundingBox → List Brick → OctreeNode × List Brick)
    (bounds : BoundingBox) (bricks : List Brick) :
    (List.range 8).foldl (buildStep rec bounds)
        (List.replicate 8 (none : Option OctreeNode), bricks) =
      buildChildren rec bounds 0 8 bricks := by
  have h := fold_eq_children rec bounds 8 [] bricks
  simpa [List.range_eq_range'] using h

/-- Specification of the leaf branch of build_octree: the leaf keeps no
    children; the brick is appended at the end of the collection exactly when
    it is retained, and then its stored index is the append position. -/
theorem buildLeaf_spec (sdf : Sdf) (brick_size : ℕ) (threshold : ℚ)
    (P : Brick → Prop) (bounds : BoundingBox) (bricks : List Brick)
    (hP : P (Brick.extract_from_sdf sdf bounds.min
      (Nat.min brick_size (Nat.max bounds.size.1 (Nat.max bounds.size.2.1 bounds.size.2.2))))) :
    buildResultSpec P (buildLeaf sdf brick_size threshold bounds bricks) bounds bricks := by
  have hnone : ∀ c ∈ List.replicate 8 (none : Option OctreeNode), c = none :=
    fun c hc => List.eq_of_mem_replicate hc
  unfold buildLeaf
  dsimp only
  split
  · refine ⟨[Brick.extract_from_sdf sdf bounds.min
      (Nat.min brick_size (Nat.max bounds.size.1
        (Nat.max bounds.size.2.1 bounds.size.2.2)))], rfl, ?_, ?_, ?_, ?_, ?_⟩
    · intro b hb
      rw [List.mem_singleton] at hb
      rw [hb]
      exact hP
    · exact octreeWF_childless _ _ _
        (fun i hi => by
          rw [Option.some.injEq] at hi
          rw [← hi]
          exact Nat.mod_lt _ (by norm_num))
        (fun h => by simp at h)
    · rw [brickIndices, childBrickIndices_all_none _ hnone]
      simp [List.range'_one]
    · rw [reboundNode, reboundChildren_all_none bounds _ 0 hnone]
    · intro h
      simp [OctreeNode.is_empty, OctreeNode.brick_index] at h
  · refine ⟨[], by simp, by simp, ?_, ?_, ?_, fun _ => rfl⟩
    · exact octreeWF_childless _ _ _ (fun i hi => by cases hi) (fun _ => rfl)
    · rw [brickIndices, childBrickIndices_all_none _ hnone]
      simp
    · rw [reboundNode, reboundChildren_all_none bounds _ 0 hnone]

/-- Specification of buildChildren under a per-child guarantee: the brick
    collection grows by the children's segments in slot order, the child
    indices concatenate to the consecutive append positions, the slots are
    well-formed and their bounds are the parent's child_bounds recomputation. -/
theorem buildChildren_spec (P : Brick → Prop)
    (rec : BoundingBox → List Brick → OctreeNode × List Brick) (bounds : BoundingBox)
    (hrec : ∀ (i : ℕ) (bricks : List Brick),
      buildResultSpec P (rec (bounds.child_bounds i) bricks) (bounds.child_bounds i) bricks) :
    ∀ (count i : ℕ) (bricks : List Brick),
      ∃ nb, (buildChildren rec bounds i count bricks).2 = bricks ++ nb ∧
        (∀ b ∈ nb, P b) ∧
        (buildChildren rec bounds i count bricks).1.length = count ∧
        octreeChildrenWF (buildChildren rec bounds i count bricks).1 = true ∧
        childBrickIndices (buildChildren rec bounds i count bricks).1 =
          (List.range' bricks.length nb.length).map w32 ∧
        reboundChildren bounds i (buildChildren rec bounds i count bricks).1 =
          (buildChildren rec bounds i count bricks).1 := by
  intro count
  induction count with
  | zero =>
    intro i bricks
    refine ⟨[], by simp [buildChildren], ?_, by simp [buildChildren], ?_, ?_, ?_⟩
    · intro b hb
      exact absurd hb (List.not_mem_nil b)
    · rw [show (buildChildren rec bounds i 0 bricks).1 = [] from rfl, octreeChildrenWF]
    · rw [show (buildChildren rec bounds i 0 bricks).1 = [] from rfl, childBrickIndices]
      simp
    · rw [show (buildChildren rec bounds i 0 bricks).1 = [] from rfl, reboundChildren]
  | succ count ih =>
    intro i bricks
    obtain ⟨nb0, hap0, hP0, hwf0, hidx0, hreb0, hemp0⟩ := hrec i bricks
    obtain ⟨nb1, hap1, hP1, hlen1, hwf1, hidx1, hreb1⟩ :=
      ih (i + 1) (rec (bounds.child_bounds i) bricks).2
    have hbc : buildChildren rec bounds i (count + 1) bricks =
        ((if (rec (bounds.child_bounds i) bricks).1.is_empty then none
          else some (rec (bounds.child_bounds i) bricks).1) ::
          (buildChildren rec bounds (i + 1) count
            (rec (bounds.child_bounds i) bricks).2).1,
         (buildChildren rec bounds (i + 1) count
            (rec (bounds.child_bounds i) bricks).2).2) := rfl
    by_cases hemp : (rec (bounds.child_bounds i) bricks).1.is_empty = true
    · have hnb0 : nb0 = [] := hemp0 hemp
      have hbr : (rec (bounds.child_bounds i) bricks).2 = bricks := by
        rw [hap0, hnb0, List.append_nil]
      refine ⟨nb1, ?_, hP1, ?_, ?_, ?_, ?_⟩
      · rw [hbc]
        dsimp only
        rw [hap1, hbr]
      · rw [hbc]
        simp [hemp, hlen1]
      · rw [hbc]
        dsimp only
        rw [if_pos hemp, octreeChildrenWF]
        exact hwf1
      · rw [hbc]
        dsimp only
        rw [if_pos hemp, childBrickIndices, hidx1, hbr]
      · rw [hbc]
        dsimp only
        rw [if_pos hemp, reboundChildren, hreb1]
    · refine ⟨nb0 ++ nb1, ?_, ?_, ?_, ?_, ?_, ?_⟩
      · rw [hbc]
        dsimp only
        rw [hap1, hap0, List.append_assoc]
      · intro b hb
        rcases List.mem_append.mp hb with hb0 | hb1
        · exact hP0 b hb0
        · exact hP1 b hb1
      · rw [hbc]
        simp [hemp, hlen1]
      · rw [hbc]
        dsimp only
        rw [if_neg hemp, octreeChildrenWF]
        simp [hemp, hwf0, hwf1]
      · rw [hbc]
        dsimp only
        rw [if_neg hemp, childBrickIndices, hidx0, hidx1, hap0, List.length_append,
          List.length_append, range'_split nb0.length bricks.length nb1.length,
          List.map_append]
      · rw [hbc]
        dsimp only
        rw [if_neg hemp, reboundChildren, hreb0, hreb1]

/-- The well-formedness of a pruned (untouched fresh) node. -/
theorem new_node_spec (P : Brick → Prop) (bounds : BoundingBox) (bricks : List Brick) :
    buildResultSpec P (OctreeNode.new bounds, bricks) bounds bricks := by
  have hnone : ∀ c ∈ List.replicate 8 (none : Option OctreeNode), c = none :=
    fun c hc => List.eq_of_mem_replicate hc
  refine ⟨[], by simp, by simp, ?_, ?_, ?_, fun _ => rfl⟩
  · rw [OctreeNode.new]
    exact octreeWF_childless _ _ _ (fun i hi => by cases hi) (fun _ => rfl)
  · rw [OctreeNode.new, brickIndices, childBrickIndices_all_none _ hnone]
    simp
  · rw [OctreeNode.new, reboundNode, reboundChildren_all_none bounds _ 0 hnone]

/-- The main invariant of build_octree, by induction on the depth budget:
    every call satisfies buildResultSpec, with the per-brick guarantee P
    supplied by a box-sanity predicate B preserved by child_bounds and
    established for every brick the leaf branch can extract. -/
theorem buildOctree_spec (sdf : Sdf) (brick_size : ℕ) (threshold : ℚ)
    (P : Brick → Prop) (B : BoundingBox → Prop)
    (hB : ∀ (b : BoundingBox) (i : ℕ), B b → B (b.child_bounds i))
    (hP : ∀ b : BoundingBox, B b → P (Brick.extract_from_sdf sdf b.min
      (Nat.min brick_size (Nat.max b.size.1 (Nat.max b.size.2.1 b.size.2.2))))) :
    ∀ (fuel : ℕ) (bounds : BoundingBox) (bricks : List Brick), B bounds →
      buildResultSpec P (buildOctree sdf brick_size threshold fuel bounds bricks)
        bounds bricks := by
  intro fuel
  induction fuel with
  | zero =>
    intro bounds bricks hb
    exact buildLeaf_spec sdf brick_size threshold P bounds bricks (hP bounds hb)
  | succ fuel ih =>
    intro bounds bricks hb
    rw [buildOctree]
    dsimp only
    split
    · exact buildLeaf_spec sdf brick_size threshold P bounds bricks (hP bounds hb)
    · split
      · exact new_node_spec P bounds bricks
      · rw [fold_children_full]
        obtain ⟨nb, hap, hPn, hlen, hwf, hidx, hreb⟩ :=
          buildChildren_spec P
            (fun b bks => buildOctree sdf brick_size threshold fuel b bks) bounds
            (fun i bks => ih (bounds.child_bounds i) bks (hB bounds i hb)) 8 0 bricks
        refine ⟨nb, hap, hPn, ?_, ?_, ?_, ?_⟩
        · rw [octreeWF]
          simp [hlen, hwf]
        · rw [brickIndices]
          simpa using hidx
        · rw [reboundNode, hreb]
        · intro hemp
          simp only [OctreeNode.is_empty, OctreeNode.brick_index, OctreeNode.children,
            Bool.and_eq_true, Option.isNone_iff_eq_none, List.all_eq_true] at hemp
          have hall : ∀ c ∈ (buildChildren
              (fun b bks => buildOctree sdf brick_size threshold fuel b bks)
              bounds 0 8 bricks).1, c = none := by
            intro c hc
            exact hemp.2 c hc
          have hnilidx := childBrickIndices_all_none _ hall
          rw [hnilidx] at hidx
          have hlen0 : nb.length = 0 := by
            have := congrArg List.length hidx
            simpa using this.symm
          exact List.eq_nil_of_length_eq_zero hlen0

/-- A node is empty exactly when it stores no brick index and retains no
    child. -/
theorem is_empty_iff (n : OctreeNode) :
    n.is_empty = true ↔ (n.brick_index = none ∧ ∀ c ∈ n.children, c = none) := by
  cases n with
  | mk cs bi leaf bnd =>
    simp [OctreeNode.is_empty, OctreeNode.brick_index, OctreeNode.children,
      Option.isNone_iff_eq_none, List.all_eq_true]

/-- The u32 cast is the identity on the index range of a small collection. -/
theorem map_w32_range (k : ℕ) (hk : k ≤ 4294967296) :
    (List.range' 0 k).map w32 = List.range k := by
  rw [List.range_eq_range']
  have h : ∀ x ∈ List.range' 0 k, w32 x = x := by
    intro x hx
    have hxk : x < k := by
      have := List.mem_range'_1.mp hx
      omega
    exact Nat.mod_eq_of_lt (by omega)
  calc (List.range' 0 k).map w32 = (List.range' 0 k).map id := List.map_congr_left h
  _ = List.range' 0 k := List.map_id _

/-- C10: every tree produced by SvoSdf::from_sdf is structurally well-formed
    (octreeWF: leaves retain no children, internal nodes store no brick
    index, every retained child is non-empty and recursively well-formed,
    indices are u32-ranged), a node is empty exactly when it has no brick
    index and no present child, and the Some(brick_index) values across the
    tree, read in depth-first child order, are exactly 0, 1, ...,
    bricks.length - 1: each stored index is the position at which that leaf's
    brick was appended, hence a valid index into the collection.  The count
    hypothesis (always true of a collection that fits in memory) makes the
    source's `as u32` cast of each index the identity. -/
theorem c10_tree_invariants (sdf : Sdf) (brick_size max_depth : ℕ) (threshold : ℚ)
    (hcount : (SvoSdf.from_sdf sdf brick_size max_depth threshold).bricks.length ≤
      4294967296) :
    octreeWF (SvoSdf.from_sdf sdf brick_size max_depth threshold).root = true ∧
    brickIndices (SvoSdf.from_sdf sdf brick_size max_depth threshold).root =
      List.range (SvoSdf.from_sdf sdf brick_size max_depth threshold).bricks.length ∧
    (∀ n : OctreeNode, n.is_empty = true ↔
      (n.brick_index = none ∧ ∀ c ∈ n.children, c = none)) := by
  obtain ⟨nb, hap, _, hwf, hidx, _, _⟩ :=
    buildOctree_spec sdf brick_size threshold (fun _ => True) (fun _ => True)
      (fun _ _ _ => trivial) (fun _ _ => trivial) max_depth
      (BoundingBox.new (0, 0, 0) sdf.header.dim) [] trivial
  have hroot : (SvoSdf.from_sdf sdf brick_size max_depth threshold).root =
      (buildOctree sdf brick_size threshold max_depth
        (BoundingBox.new (0, 0, 0) sdf.header.dim) []).1 := rfl
  have hbricks : (SvoSdf.from_sdf sdf brick_size max_depth threshold).bricks =
      (buildOctree sdf brick_size threshold max_depth
        (BoundingBox.new (0, 0, 0) sdf.header.dim) []).2 := rfl
  refine ⟨by rw [hroot]; exact hwf, ?_, is_empty_iff⟩
  rw [hroot, hbricks, hidx, hap]
  have hcount2 : nb.length ≤ 4294967296 := by
    rw [hbricks, hap] at hcount
    simpa using hcount
  simp only [List.nil_append, List.length_nil]
  exact map_w32_range nb.length hcount2

/-- Witness for c10_tree_invariants on the tiny 2x1x1 volume: the single
    brick is retained, so the collection is non-trivial and in range. -/
theorem c10_witness :
    ((SvoSdf.from_sdf sdfTiny211 2 0 0).bricks.length ≤ 4294967296) ∧
    (octreeWF (SvoSdf.from_sdf sdfTiny211 2 0 0).root = true ∧
     brickIndices (SvoSdf.from_sdf sdfTiny211 2 0 0).root =
       List.range (SvoSdf.from_sdf sdfTiny211 2 0 0).bricks.length ∧
     (∀ n : OctreeNode, n.is_empty = true ↔
       (n.brick_index = none ∧ ∀ c ∈ n.children, c = none))) :=
  ⟨by decide, c10_tree_invariants sdfTiny211 2 0 0 (by decide)⟩

/-- One Option bind step once the first computation is known. -/
theorem bind_some_step {α β : Type} {ma : Option α} {a : α} (h : ma = some a)
    (f : α → Option β) : (ma >>= f) = f a := by
  rw [h]
  rfl

/-- Round trip of the one-byte field. -/
theorem loadU8_store (n : ℕ) (rest : List ℕ) :
    loadU8 (storeU8 n ++ rest) = some (w8 n, rest) := rfl

/-- Round trip of the 16-bit field. -/
theorem loadU16_store (n : ℕ) (rest : List ℕ) :
    loadU16 (storeU16 n ++ rest) = some (w16 n, rest) := by
  show some (w16 n % 256 + 256 * (w16 n / 256), rest) = some (w16 n, rest)
  rw [show w16 n % 256 + 256 * (w16 n / 256) = w16 n from by omega]

/-- Round trip of the 32-bit field. -/
theorem loadU32_store (n : ℕ) (rest : List ℕ) :
    loadU32 (storeU32 n ++ rest) = some (w32 n, rest) := by
  show some (w32 n % 256 + 256 * (w32 n / 256 % 256) + 65536 * (w32 n / 65536 % 256) +
    16777216 * (w32 n / 16777216), rest) = some (w32 n, rest)
  rw [show w32 n % 256 + 256 * (w32 n / 256 % 256) + 65536 * (w32 n / 65536 % 256) +
    16777216 * (w32 n / 16777216) = w32 n from by
      have h : w32 n < 4294967296 := Nat.mod_lt _ (by norm_num)
      omega]

/-- Round trip of a u16 sample array. -/
theorem loadArrayU16_store :
    ∀ (l : List ℕ), (∀ v ∈ l, v < 65536) → ∀ rest : List ℕ,
      loadArrayU16 l.length (storeArrayU16 l ++ rest) = some (l, rest) := by
  intro l
  induction l with
  | nil => intro _ rest; rfl
  | cons v tl ih =>
    intro h rest
    have hv : v < 65536 := h v (List.mem_cons_self v tl)
    have htl : ∀ u ∈ tl, u < 65536 := fun u hu => h u (List.mem_cons_of_mem _ hu)
    have hst : storeArrayU16 (v :: tl) ++ rest =
        storeU16 v ++ (storeArrayU16 tl ++ rest) := by
      simp [storeArrayU16]
    rw [List.length_cons, loadArrayU16, hst,
      bind_some_step (loadU16_store v (storeArrayU16 tl ++ rest)) _]
    dsimp only
    rw [bind_some_step (ih htl rest) _]
    dsimp only
    rw [show w16 v = v from Nat.mod_eq_of_lt hv]
    rfl

/-- Round trip of the brick records section: each record is the size, the
    position triple and the sample array, and the reader recomputes the sample
    count from the loaded size exactly as the writer sized the buffer. -/
theorem loadBricks_store :
    ∀ (bs : List Brick), (∀ b ∈ bs, brickWF b = true) → ∀ rest : List ℕ,
      loadBricksAux bs.length
        ((bs.map (fun b => storeU32 b.size ++ (storeU32 b.position.1 ++
          (storeU32 b.position.2.1 ++ (storeU32 b.position.2.2 ++
          storeArrayU16 b.data))))).flatten ++ rest) = some (bs, rest) := by
  intro bs
  induction bs with
  | nil => intro _ rest; rfl
  | cons b tl ih =>
    intro h rest
    have hb := h b (List.mem_cons_self b tl)
    simp only [brickWF, Bool.and_eq_true, and_assoc, decide_eq_true_eq,
      List.all_eq_true] at hb
    obtain ⟨hsz, hp1, hp2, hp3, hlen, hvals⟩ := hb
    have hvals2 : ∀ v ∈ b.data, v < 65536 := by
      intro v hv
      have h2 := hvals v hv
      simpa using h2
    have htl : ∀ c ∈ tl, brickWF c = true := fun c hc => h c (List.mem_cons_of_mem _ hc)
    rw [List.length_cons, loadBricksAux]
    rw [show ((b :: tl).map (fun c => storeU32 c.size ++ (storeU32 c.position.1 ++
          (storeU32 c.position.2.1 ++ (storeU32 c.position.2.2 ++
          storeArrayU16 c.data))))).flatten ++ rest =
        storeU32 b.size ++ (storeU32 b.position.1 ++ (storeU32 b.position.2.1 ++
          (storeU32 b.position.2.2 ++ (storeArrayU16 b.data ++
          ((tl.map (fun c => storeU32 c.size ++ (storeU32 c.position.1 ++
            (storeU32 c.position.2.1 ++ (storeU32 c.position.2.2 ++
            storeArrayU16 c.data))))).flatten ++ rest))))) from by
      simp [List.append_assoc]]
    rw [bind_some_step (loadU32_store b.size _) _]
    dsimp only
    rw [bind_some_step (loadU32_store b.position.1 _) _]
    dsimp only
    rw [bind_some_step (loadU32_store b.position.2.1 _) _]
    dsimp only
    rw [bind_some_step (loadU32_store b.position.2.2 _) _]
    dsimp only
    rw [show w32 b.size = b.size from Nat.mod_eq_of_lt hsz]
    rw [← hlen, bind_some_step (loadArrayU16_store b.data hvals2 _) _]
    dsimp only
    rw [bind_some_step (ih htl rest) _]
    dsimp only
    rw [show w32 b.position.1 = b.position.1 from Nat.mod_eq_of_lt hp1,
      show w32 b.position.2.1 = b.position.2.1 from Nat.mod_eq_of_lt hp2,
      show w32 b.position.2.2 = b.position.2.2 from Nat.mod_eq_of_lt hp3]
    rfl

/-- The mask accumulated from bit i is the mask from bit 0 shifted up. -/
theorem childMaskAux_scale :
    ∀ (l : List (Option OctreeNode)) (i : ℕ),
      childMaskAux i l = 2 ^ i * childMaskAux 0 l := by
  intro l
  induction l with
  | nil => intro i; simp [childMaskAux]
  | cons c rest ih =>
    intro i
    rw [childMaskAux, childMaskAux, ih (i + 1), ih 1]
    cases hc : c.isSome <;> simp [hc, pow_succ] <;> ring

/-- The child mask fits the number of slots. -/
theorem childMaskAux_lt :
    ∀ (l : List (Option OctreeNode)), childMaskAux 0 l < 2 ^ l.length := by
  intro l
  induction l with
  | nil => simp [childMaskAux]
  | cons c rest ih =>
    rw [childMaskAux, childMaskAux_scale rest 1, pow_one, List.length_cons]
    have h2 : (2:ℕ) ^ (rest.length + 1) = 2 * 2 ^ rest.length := by ring
    rw [h2]
    cases hc : c.isSome <;> simp [hc] <;> omega

/-- Bit k of the child mask is the presence flag of slot k (false beyond the
    list). -/
theorem childMask_testBit :
    ∀ (l : List (Option OctreeNode)) (k : ℕ),
      (childMask l).testBit k = (l.getD k none).isSome := by
  intro l
  induction l with
  | nil =>
    intro k
    show (childMaskAux 0 []).testBit k = _
    rw [childMaskAux]
    simp [Nat.zero_testBit]
  | cons c rest ih =>
    intro k
    have hm : childMask (c :: rest) =
        (if c.isSome then 1 else 0) + 2 * childMask rest := by
      show childMaskAux 0 (c :: rest) = _
      rw [childMaskAux, childMaskAux_scale rest 1, pow_one]
      norm_num
      rfl
    cases k with
    | zero =>
      rw [hm]
      cases hc : c.isSome <;>
        simp [hc, Nat.testBit_zero, Nat.add_mul_mod_self_left, Nat.mul_mod_right]
    | succ k =>
      rw [hm, Nat.testBit_succ]
      have hdiv : ((if c.isSome then 1 else 0) + 2 * childMask rest) / 2 =
          childMask rest := by
        cases hc : c.isSome <;> simp [hc] <;> omega
      rw [hdiv]
      show _ = ((c :: rest).getD (k + 1) none).isSome
      rw [show (c :: rest).getD (k + 1) none = rest.getD k none from rfl]
      exact ih k

/-- A pure Option bind step. -/
theorem pure_bind_step {α β : Type} (a : α) (f : α → Option β) :
    ((pure a : Option α) >>= f) = f a := rfl

/-- A getD hit at any index is a member. -/
theorem getD_some_mem {α : Type} :
    ∀ (l : List (Option α)) (k : ℕ) (c : α), l.getD k none = some c → some c ∈ l := by
  intro l
  induction l with
  | nil =>
    intro k c h
    simp [List.getD] at h
  | cons a tl ih =>
    intro k c h
    cases k with
    | zero =>
      have ha : a = some c := by simpa using h
      rw [ha]
      exact List.mem_cons_self _ tl
    | succ k =>
      have h2 : tl.getD k none = some c := by
        rw [show (a :: tl).getD (k + 1) none = tl.getD k none from rfl] at h
        exact h
      exact List.mem_cons_of_mem _ (ih k c h2)

/-- Every present child of a well-formed slot list is well-formed. -/
theorem octreeChildrenWF_mem :
    ∀ (l : List (Option OctreeNode)) (c : OctreeNode),
      octreeChildrenWF l = true → some c ∈ l → octreeWF c = true := by
  intro l
  induction l with
  | nil =>
    intro c _ hm
    exact absurd hm (List.not_mem_nil _)
  | cons d tl ih =>
    intro c hwf hm
    rcases List.mem_cons.mp hm with hd | hm2
    · rw [← hd] at hwf
      rw [octreeChildrenWF] at hwf
      simp only [Bool.and_eq_true] at hwf
      exact hwf.1.2
    · cases d with
      | none =>
        rw [octreeChildrenWF] at hwf
        exact ih c hwf hm2
      | some e =>
        rw [octreeChildrenWF] at hwf
        simp only [Bool.and_eq_true] at hwf
        exact ih c hwf.2 hm2

/-- A present child's record is no longer than the whole children section. -/
theorem serialize_children_le :
    ∀ (l : List (Option OctreeNode)) (c : OctreeNode), some c ∈ l →
      (serialize_node c).length ≤ (serialize_children l).length := by
  intro l
  induction l with
  | nil =>
    intro c hm
    exact absurd hm (List.not_mem_nil _)
  | cons d tl ih =>
    intro c hm
    rcases List.mem_cons.mp hm with hd | hm2
    · rw [← hd, serialize_children, List.length_append]
      exact Nat.le_add_right _ _
    · cases d with
      | none =>
        rw [serialize_children]
        exact ih c hm2
      | some e =>
        rw [serialize_children, List.length_append]
        exact Nat.le_trans (ih c hm2) (Nat.le_add_left _ _)

/-- An internal node's record is at least 27 bytes longer than its children
    section (flag, brick byte, six 4-byte bounds words, mask byte). -/
theorem serialize_children_le_node (cs : List (Option OctreeNode)) (bi : Option ℕ)
    (bounds : BoundingBox) :
    (serialize_children cs).length + 27 ≤
      (serialize_node (OctreeNode.mk cs bi false bounds)).length := by
  cases bi with
  | none =>
    rw [serialize_node]
    simp [storeU8, storeU32]
  | some idx =>
    rw [serialize_node]
    simp [storeU8, storeU32]

/-- Round trip of the child slots: parsing the children section under the
    child mask reproduces the slot pattern, with every present child parsed
    at the recomputed child box.  Stated for an arbitrary starting bit. -/
theorem deserializeChildren_roundtrip
    (parse : BoundingBox → List ℕ → Option (OctreeNode × List ℕ)) (bounds : BoundingBox)
    (mask : ℕ) :
    ∀ (cs : List (Option OctreeNode)) (i : ℕ) (rest : List ℕ),
      (∀ k, mask.testBit (i + k) = (cs.getD k none).isSome) →
      (∀ k c, cs.getD k none = some c → ∀ rest2,
        parse (bounds.child_bounds (i + k)) (serialize_node c ++ rest2) =
          some (reboundNode c (bounds.child_bounds (i + k)), rest2)) →
      deserializeChildren parse bounds mask i cs.length (serialize_children cs ++ rest) =
        some (reboundChildren bounds i cs, rest) := by
  intro cs
  induction cs with
  | nil =>
    intro i rest _ _
    rw [serialize_children, List.nil_append,
      show ([] : List (Option OctreeNode)).length = 0 from rfl, deserializeChildren,
      reboundChildren]
  | cons c tl ih =>
    intro i rest hbit hparse
    have hbit0 := hbit 0
    rw [Nat.add_zero] at hbit0
    have hbit' : ∀ k, mask.testBit ((i + 1) + k) = (tl.getD k none).isSome := by
      intro k
      have h := hbit (k + 1)
      rw [show i + (k + 1) = (i + 1) + k from by omega,
        show (c :: tl).getD (k + 1) none = tl.getD k none from rfl] at h
      exact h
    have hparse' : ∀ k d, tl.getD k none = some d → ∀ rest2,
        parse (bounds.child_bounds ((i + 1) + k)) (serialize_node d ++ rest2) =
          some (reboundNode d (bounds.child_bounds ((i + 1) + k)), rest2) := by
      intro k d hd rest2
      have h := hparse (k + 1) d
        (by rw [show (c :: tl).getD (k + 1) none = tl.getD k none from rfl]; exact hd) rest2
      rw [show i + (k + 1) = (i + 1) + k from by omega] at h
      exact h
    rw [List.length_cons, deserializeChildren]
    cases c with
    | none =>
      have hb : mask.testBit i = false := by rw [hbit0]; rfl
      simp only [hb, Bool.false_eq_true, if_false]
      rw [serialize_children]
      rw [bind_some_step (ih (i + 1) rest hbit' hparse') _]
      dsimp only
      rw [reboundChildren]
      rfl
    | some n =>
      have hb : mask.testBit i = true := by rw [hbit0]; rfl
      simp only [hb]
      rw [serialize_children, List.append_assoc]
      have hp0 := hparse 0 n rfl (serialize_children tl ++ rest)
      rw [Nat.add_zero] at hp0
      rw [bind_some_step hp0 _]
      dsimp only
      rw [bind_some_step (ih (i + 1) rest hbit' hparse') _]
      dsimp only
      rw [reboundChildren]
      rfl

/-- Round trip of one serialized node: parsing its record (followed by any
    suffix) from a well-formed node yields the same tree with bounds
    recomputed top-down from the given box, leaving the suffix.  The fuel
    only needs to exceed the record length, since every level consumes
    bytes. -/
theorem deserialize_serialize_node :
    ∀ (fuel : ℕ) (n : OctreeNode) (b : BoundingBox) (rest : List ℕ),
      octreeWF n = true → (serialize_node n).length < fuel →
      deserialize_node fuel (serialize_node n ++ rest) b =
        some (reboundNode n b, rest) := by
  intro fuel
  induction fuel with
  | zero =>
    intro n b rest _ hlen
    exact absurd hlen (Nat.not_lt_zero _)
  | succ fuel ih =>
    intro n b rest hwf hlen
    cases n with
    | mk cs bi leaf bounds =>
      rw [octreeWF.eq_def] at hwf
      dsimp only at hwf
      simp only [Bool.and_eq_true, and_assoc, decide_eq_true_eq] at hwf
      obtain ⟨hcs8, hbim, hlf, hcwf⟩ := hwf
      cases leaf with
      | true =>
        have hallnone : ∀ c ∈ cs, c = none := by
          simp only [if_true] at hlf
          intro c hc
          have h := List.all_eq_true.mp hlf c hc
          simpa [Option.isNone_iff_eq_none] using h
        have hcs : cs = List.replicate 8 none := List.eq_replicate_iff.mpr ⟨hcs8, hallnone⟩
        cases bi with
        | none =>
          have hser : serialize_node (OctreeNode.mk cs none true bounds) ++ rest =
              storeU8 1 ++ (storeU8 0 ++ (storeU32 bounds.min.1 ++ (storeU32 bounds.min.2.1 ++
              (storeU32 bounds.min.2.2 ++ (storeU32 bounds.max.1 ++ (storeU32 bounds.max.2.1 ++
              (storeU32 bounds.max.2.2 ++ rest))))))) := by
            rw [serialize_node]
            simp [List.append_assoc]
          rw [hser, deserialize_node]
          rw [bind_some_step (loadU8_store 1 _) _]
          dsimp only
          rw [bind_some_step (loadU8_store 0 _) _]
          dsimp only
          have hb0 : ((w8 0 : ℕ) != 0) = false := rfl
          simp only [hb0, Bool.false_eq_true, if_false]
          rw [pure_bind_step]
          dsimp only
          rw [bind_some_step (loadU32_store bounds.min.1 _) _]
          dsimp only
          rw [bind_some_step (loadU32_store bounds.min.2.1 _) _]
          dsimp only
          rw [bind_some_step (loadU32_store bounds.min.2.2 _) _]
          dsimp only
          rw [bind_some_step (loadU32_store bounds.max.1 _) _]
          dsimp only
          rw [bind_some_step (loadU32_store bounds.max.2.1 _) _]
          dsimp only
          rw [bind_some_step (loadU32_store bounds.max.2.2 _) _]
          dsimp only
          have hb1 : ((w8 1 : ℕ) != 0) = true := rfl
          simp only [hb1]
          rw [reboundNode, hcs, reboundChildren_all_none b _ 0
            (fun c hc => List.eq_of_mem_replicate hc)]
          rfl
        | some idx =>
          have hidx : idx < 4294967296 := by simpa using hbim
          have hser : serialize_node (OctreeNode.mk cs (some idx) true bounds) ++ rest =
              storeU8 1 ++ (storeU8 1 ++ (storeU32 idx ++ (storeU32 bounds.min.1 ++
              (storeU32 bounds.min.2.1 ++
              (storeU32 bounds.min.2.2 ++ (storeU32 bounds.max.1 ++ (storeU32 bounds.max.2.1 ++
              (storeU32 bounds.max.2.2 ++ rest)))))))) := by
            rw [serialize_node]
            simp [List.append_assoc]
          rw [hser, deserialize_node]
          rw [bind_some_step (loadU8_store 1 _) _]
          dsimp only
          rw [bind_some_step (loadU8_store 1 _) _]
          dsimp only
          have hb1 : ((w8 1 : ℕ) != 0) = true := rfl
          simp only [hb1]
          rw [bind_some_step (loadU32_store idx _) _]
          dsimp only
          rw [pure_bind_step]
          dsimp only
          rw [bind_some_step (loadU32_store bounds.min.1 _) _]
          dsimp only
          rw [bind_some_step (loadU32_store bounds.min.2.1 _) _]
          dsimp only
          rw [bind_some_step (loadU32_store bounds.min.2.2 _) _]
          dsimp only
          rw [bind_some_step (loadU32_store bounds.max.1 _) _]
          dsimp only
          rw [bind_some_step (loadU32_store bounds.max.2.1 _) _]
          dsimp only
          rw [bind_some_step (loadU32_store bounds.max.2.2 _) _]
          dsimp only
          rw [show w32 idx = idx from Nat.mod_eq_of_lt hidx]
          rw [reboundNode, hcs, reboundChildren_all_none b _ 0
            (fun c hc => List.eq_of_mem_replicate hc)]
          rfl
      | false =>
        have hbi : bi = none := by
          simp only [Bool.false_eq_true, if_false] at hlf
          exact Option.isNone_iff_eq_none.mp hlf
        subst hbi
        have hmask : w8 (childMask cs) = childMask cs := by
          have h := childMaskAux_lt cs
          rw [hcs8] at h
          exact Nat.mod_eq_of_lt (by exact h)
        have hser : serialize_node (OctreeNode.mk cs none false bounds) ++ rest =
            storeU8 0 ++ (storeU8 0 ++ (storeU32 bounds.min.1 ++ (storeU32 bounds.min.2.1 ++
            (storeU32 bounds.min.2.2 ++ (storeU32 bounds.max.1 ++ (storeU32 bounds.max.2.1 ++
            (storeU32 bounds.max.2.2 ++ (storeU8 (childMask cs) ++
            (serialize_children cs ++ rest))))))))) := by
          rw [serialize_node]
          simp [List.append_assoc]
        rw [hser, deserialize_node]
        rw [bind_some_step (loadU8_store 0 _) _]
        dsimp only
        rw [bind_some_step (loadU8_store 0 _) _]
        dsimp only
        have hb0 : ((w8 0 : ℕ) != 0) = false := rfl
        simp only [hb0, Bool.false_eq_true, if_false]
        rw [pure_bind_step]
        dsimp only
        rw [bind_some_step (loadU32_store bounds.min.1 _) _]
        dsimp only
        rw [bind_some_step (loadU32_store bounds.min.2.1 _) _]
        dsimp only
        rw [bind_some_step (loadU32_store bounds.min.2.2 _) _]
        dsimp only
        rw [bind_some_step (loadU32_store bounds.max.1 _) _]
        dsimp only
        rw [bind_some_step (loadU32_store bounds.max.2.1 _) _]
        dsimp only
        rw [bind_some_step (loadU32_store bounds.max.2.2 _) _]
        dsimp only
        rw [bind_some_step (loadU8_store (childMask cs) _) _]
        dsimp only
        rw [hmask]
        have hroundtrip := deserializeChildren_roundtrip
          (fun b2 bs => deserialize_node fuel bs b2) b (childMask cs) cs 0 rest
          (fun k => by
            rw [Nat.zero_add]
            exact childMask_testBit cs k)
          (fun k c hc rest2 => by
            rw [Nat.zero_add]
            have hcwfc : octreeWF c = true :=
              octreeChildrenWF_mem cs c hcwf (getD_some_mem cs k c hc)
            have hlenc : (serialize_node c).length < fuel := by
              have h1 := serialize_children_le cs c (getD_some_mem cs k c hc)
              have h2 := serialize_children_le_node cs none bounds
              omega
            exact ih c (b.child_bounds k) rest2 hcwfc hlenc)
        rw [hcs8] at hroundtrip
        rw [bind_some_step hroundtrip _]
        dsimp only
        rw [reboundNode]
        rfl

/-- Whole-record parse of a well-formed node with nothing following. -/
theorem deserialize_serialize_node_self (fuel : ℕ) (n : OctreeNode) (b : BoundingBox)
    (hwf : octreeWF n = true) (hfuel : (serialize_node n).length < fuel) :
    deserialize_node fuel (serialize_node n) b = some (reboundNode n b, []) := by
  rw [show serialize_node n = serialize_node n ++ [] from (List.append_nil _).symm]
  exact deserialize_serialize_node fuel n b [] hwf hfuel

/-- child_bounds preserves box sanity: with both corners below 2^31 the
    midpoint sum cannot wrap, so each child box is again ordered with corners
    below 2^31. -/
theorem boxWF_child_bounds (b : BoundingBox) (i : ℕ) (hb : boxWF b) :
    boxWF (b.child_bounds i) := by
  obtain ⟨h1, h2, h3, h4, h5, h6⟩ := hb
  rcases i with _|_|_|_|_|_|_|_|i <;>
    simp only [BoundingBox.child_bounds, BoundingBox.new, BoundingBox.center, boxWF, w32] <;>
    omega

/-- The extracted brick keeps the requested edge length. -/
theorem extract_size (sdf : Sdf) (pos : ℕ × ℕ × ℕ) (size : ℕ) :
    (Brick.extract_from_sdf sdf pos size).size = size := rfl

/-- The extracted brick keeps the requested origin. -/
theorem extract_position (sdf : Sdf) (pos : ℕ × ℕ × ℕ) (size : ℕ) :
    (Brick.extract_from_sdf sdf pos size).position = pos := rfl

/-- Every brick the leaf branch can extract from a sane box is well-formed:
    u32-ranged size (clamped to brick_size) and position, buffer length the
    recomputable size^3 product, u16-ranged samples. -/
theorem extract_brickWF (sdf : Sdf) (brick_size : ℕ)
    (hvol : sdf.voxels.length =
      sdf.header.dim.1 * sdf.header.dim.2.1 * sdf.header.dim.2.2)
    (hdim : sdf.header.dim.1 * sdf.header.dim.2.1 * sdf.header.dim.2.2 < 4294967296)
    (hvox : ∀ v ∈ sdf.voxels, v < 65536)
    (hbs : brick_size < 4294967296)
    (b : BoundingBox) (hb : boxWF b) :
    brickWF (Brick.extract_from_sdf sdf b.min
      (Nat.min brick_size (Nat.max b.size.1 (Nat.max b.size.2.1 b.size.2.2)))) = true := by
  obtain ⟨h1, h2, h3, h4, h5, h6⟩ := hb
  simp only [brickWF, Bool.and_eq_true, and_assoc, decide_eq_true_eq, List.all_eq_true]
  refine ⟨?_, ?_, ?_, ?_, ?_, ?_⟩
  · rw [extract_size]
    exact Nat.lt_of_le_of_lt (Nat.min_le_left _ _) hbs
  · rw [extract_position]
    omega
  · rw [extract_position]
    omega
  · rw [extract_position]
    omega
  · rw [extract_size]
    exact extract_data_length sdf b.min _
  · intro v hv
    rcases extract_data_values sdf b.min.1 b.min.2.1 b.min.2.2 _ hvol hdim v hv with
      hmem | hLZ
    · exact hvox v hmem
    · rw [hLZ]
      norm_num [LEVEL_ZERO]

/-- C1: save followed by load is lossless up to the documented bounds
    recomputation.  For every built SvoSdf (u32-exact volume and inputs:
    header fields in u32 range, dimensions below 2^31 so the midpoint splits
    are exact, u16 samples matching the header, brick collection and
    brick_size in u32 range), parsing the saved byte sequence succeeds and
    returns the same header, the same brick_size, the byte-identical brick
    collection (same count, sizes, positions, sample data), and the same tree
    up to reboundNode: identical is_leaf flags, brick indices and
    child-presence pattern at every node, with every node's bounds recomputed
    top-down from (0,0,0)..dim via child_bounds instead of the stored
    bounds fields. -/
theorem c1_save_load_roundtrip (sdf : Sdf) (brick_size max_depth : ℕ) (threshold : ℚ)
    (hvol : sdf.voxels.length =
      sdf.header.dim.1 * sdf.header.dim.2.1 * sdf.header.dim.2.2)
    (hdim : sdf.header.dim.1 * sdf.header.dim.2.1 * sdf.header.dim.2.2 < 4294967296)
    (hvox : ∀ v ∈ sdf.voxels, v < 65536)
    (hd1 : sdf.header.dim.1 < 2147483648) (hd2 : sdf.header.dim.2.1 < 2147483648)
    (hd3 : sdf.header.dim.2.2 < 2147483648)
    (hbm1 : sdf.header.box_min.1 < 4294967296)
    (hbm2 : sdf.header.box_min.2.1 < 4294967296)
    (hbm3 : sdf.header.box_min.2.2 < 4294967296)
    (hdx : sdf.header.dx < 4294967296)
    (hbs : brick_size < 4294967296)
    (hcount : (SvoSdf.from_sdf sdf brick_size max_depth threshold).bricks.length <
      4294967296) :
    loadBytes (saveBytes (SvoSdf.from_sdf sdf brick_size max_depth threshold)) =
      some (SvoSdf.mk sdf.header
        (reboundNode (SvoSdf.from_sdf sdf brick_size max_depth threshold).root
          (BoundingBox.new (0, 0, 0) sdf.header.dim))
        (SvoSdf.from_sdf sdf brick_size max_depth threshold).bricks
        brick_size) := by
  have hbox : boxWF (BoundingBox.new (0, 0, 0) sdf.header.dim) := by
    refine ⟨?_, ?_, ?_, ?_, ?_, ?_⟩ <;> simp [BoundingBox.new] <;> omega
  obtain ⟨nb, hap, hPb, hwf, _, _, _⟩ :=
    buildOctree_spec sdf brick_size threshold (fun bk => brickWF bk = true) boxWF
      (fun bx i hbx => boxWF_child_bounds bx i hbx)
      (fun bx hbx => extract_brickWF sdf brick_size hvol hdim hvox hbs bx hbx)
      max_depth (BoundingBox.new (0, 0, 0) sdf.header.dim) [] hbox
  have hsbr : (SvoSdf.from_sdf sdf brick_size max_depth threshold).bricks = nb := by
    rw [show (SvoSdf.from_sdf sdf brick_size max_depth threshold).bricks =
      (buildOctree sdf brick_size threshold max_depth
        (BoundingBox.new (0, 0, 0) sdf.header.dim) []).2 from rfl, hap, List.nil_append]
  have hbw : ∀ bk ∈ (SvoSdf.from_sdf sdf brick_size max_depth threshold).bricks,
      brickWF bk = true := by
    rw [hsbr]
    exact hPb
  have hrootwf : octreeWF (SvoSdf.from_sdf sdf brick_size max_depth threshold).root =
      true := hwf
  unfold loadBytes saveBytes
  simp only [List.append_assoc]
  rw [show (SvoSdf.from_sdf sdf brick_size max_depth threshold).header = sdf.header from rfl,
    show (SvoSdf.from_sdf sdf brick_size max_depth threshold).brick_size = brick_size from
      rfl]
  rw [bind_some_step (loadU32_store _ _) _]
  dsimp only
  rw [bind_some_step (loadU32_store _ _) _]
  dsimp only
  rw [bind_some_step (loadU32_store _ _) _]
  dsimp only
  rw [bind_some_step (loadU32_store _ _) _]
  dsimp only
  rw [bind_some_step (loadU32_store _ _) _]
  dsimp only
  rw [bind_some_step (loadU32_store _ _) _]
  dsimp only
  rw [bind_some_step (loadU32_store _ _) _]
  dsimp only
  rw [bind_some_step (loadU32_store _ _) _]
  dsimp only
  rw [bind_some_step (loadU32_store _ _) _]
  dsimp only
  rw [show w32 sdf.header.dim.1 = sdf.header.dim.1 from Nat.mod_eq_of_lt (by omega),
    show w32 sdf.header.dim.2.1 = sdf.header.dim.2.1 from Nat.mod_eq_of_lt (by omega),
    show w32 sdf.header.dim.2.2 = sdf.header.dim.2.2 from Nat.mod_eq_of_lt (by omega),
    show w32 sdf.header.box_min.1 = sdf.header.box_min.1 from Nat.mod_eq_of_lt (by omega),
    show w32 sdf.header.box_min.2.1 = sdf.header.box_min.2.1 from
      Nat.mod_eq_of_lt (by omega),
    show w32 sdf.header.box_min.2.2 = sdf.header.box_min.2.2 from
      Nat.mod_eq_of_lt (by omega),
    show w32 sdf.header.dx = sdf.header.dx from Nat.mod_eq_of_lt (by omega),
    show w32 brick_size = brick_size from Nat.mod_eq_of_lt (by omega),
    show w32 (SvoSdf.from_sdf sdf brick_size max_depth threshold).bricks.length =
      (SvoSdf.from_sdf sdf brick_size max_depth threshold).bricks.length from
      Nat.mod_eq_of_lt (by omega)]
  rw [bind_some_step (loadBricks_store
    (SvoSdf.from_sdf sdf brick_size max_depth threshold).bricks hbw
    (serialize_node (SvoSdf.from_sdf sdf brick_size max_depth threshold).root)) _]
  dsimp only
  rw [bind_some_step (deserialize_serialize_node_self _
    (SvoSdf.from_sdf sdf brick_size max_depth threshold).root _ hrootwf
    (Nat.lt_succ_self _)) _]
  dsimp only
  rfl

/-- Witness for c1_save_load_roundtrip on the tiny 2x1x1 volume (one inside
    and one outside sample, one retained brick). -/
theorem c1_witness :
    (sdfTiny211.voxels.length =
      sdfTiny211.header.dim.1 * sdfTiny211.header.dim.2.1 * sdfTiny211.header.dim.2.2) ∧
    (sdfTiny211.header.dim.1 * sdfTiny211.header.dim.2.1 * sdfTiny211.header.dim.2.2 <
      4294967296) ∧
    (∀ v ∈ sdfTiny211.voxels, v < 65536) ∧
    ((SvoSdf.from_sdf sdfTiny211 2 0 0).bricks.length < 4294967296) ∧
    (loadBytes (saveBytes (SvoSdf.from_sdf sdfTiny211 2 0 0)) =
      some (SvoSdf.mk sdfTiny211.header
        (reboundNode (SvoSdf.from_sdf sdfTiny211 2 0 0).root
          (BoundingBox.new (0, 0, 0) sdfTiny211.header.dim))
        (SvoSdf.from_sdf sdfTiny211 2 0 0).bricks
        2)) :=
  ⟨by decide, by decide, by decide, by decide,
   c1_save_load_roundtrip sdfTiny211 2 0 0 (by decide) (by decide) (by decide)
     (by decide) (by decide) (by decide) (by decide) (by decide) (by decide)
     (by decide) (by decide) (by decide)⟩

end SvoSdfVerify
